import Mathlib

/-!
Verification of the rs-licer core slicing pipeline (src/lib.rs) against its
specification.  The Rust code is shallowly embedded: vectors of `f32` become
triples of rationals (exact arithmetic), `Option<f32>` becomes `Option ℚ`,
imperative loops become folds over `List.range`.  Where a claim is
specifically about IEEE-754 special values or rounding, a dedicated model is
used (`FQ` for NaN propagation, `roundF32` for round-to-nearest-even).
-/

namespace Slicer

/-- A 3-component vector, modelling `glam::Vec3` (exact-arithmetic model of
`f32` components). -/
structure Vec3 where
  x : ℚ
  y : ℚ
  z : ℚ
deriving DecidableEq

/-- Componentwise subtraction, modelling `glam` vector subtraction. -/
def vsub (a b : Vec3) : Vec3 := ⟨a.x - b.x, a.y - b.y, a.z - b.z⟩

/-- Dot product, modelling `Vec3::dot`. -/
def dot (a b : Vec3) : ℚ := a.x * b.x + a.y * b.y + a.z * b.z

/-- Cross product, modelling `Vec3::cross`. -/
def cross (a b : Vec3) : Vec3 :=
  ⟨a.y * b.z - a.z * b.y, a.z * b.x - a.x * b.z, a.x * b.y - a.y * b.x⟩

/-- Componentwise minimum, modelling `Vec3::min`. -/
def vmin (a b : Vec3) : Vec3 := ⟨min a.x b.x, min a.y b.y, min a.z b.z⟩

/-- Componentwise maximum, modelling `Vec3::max`. -/
def vmax (a b : Vec3) : Vec3 := ⟨max a.x b.x, max a.y b.y, max a.z b.z⟩

/-- A mesh triangle, modelling `struct Triangle` in src/lib.rs (the
`node_index` slot is BVH bookkeeping carried along as in the source). -/
structure Triangle where
  v0 : Vec3
  v1 : Vec3
  v2 : Vec3
  node_index : ℕ := 0
deriving DecidableEq

/-- A ray, modelling `bvh::ray::Ray` as used by the slicer (origin and
direction). -/
structure Ray where
  origin : Vec3
  direction : Vec3
deriving DecidableEq

/-- The parallel-plane cutoff `1e-6` used by `Triangle::intersect`. -/
def eps6 : ℚ := 1 / 1000000

/-- The rasterizer slab epsilon `1e-4` used in the layer loop. -/
def eps4 : ℚ := 1 / 10000

/-- Möller–Trumbore ray–triangle intersection, translated clause by clause
from `Triangle::intersect` in src/lib.rs (lines 51–84). -/
def Triangle.intersect (t : Triangle) (ray : Ray) : Option ℚ :=
  let epsilon : ℚ := 1 / 1000000
  let edge1 := vsub t.v1 t.v0
  let edge2 := vsub t.v2 t.v0
  let h := cross ray.direction edge2
  let a := dot edge1 h
  if a > -epsilon ∧ a < epsilon then none
  else
    let f := 1 / a
    let s := vsub ray.origin t.v0
    let u := f * dot s h
    if u < 0 ∨ u > 1 then none
    else
      let q := cross s edge1
      let v := f * dot ray.direction q
      if v < 0 ∨ u + v > 1 then none
      else
        let t' := f * dot edge2 q
        if t' > epsilon then some t' else none

/-- The determinant `a = edge1 · (direction × edge2)` of the intersection
routine. -/
def mtA (t : Triangle) (ray : Ray) : ℚ :=
  dot (vsub t.v1 t.v0) (cross ray.direction (vsub t.v2 t.v0))

/-- The barycentric coordinate `u = (1/a) * (s · h)` of the intersection
routine. -/
def mtU (t : Triangle) (ray : Ray) : ℚ :=
  (1 / mtA t ray) * dot (vsub ray.origin t.v0) (cross ray.direction (vsub t.v2 t.v0))

/-- The barycentric coordinate `v = (1/a) * (direction · q)` of the
intersection routine. -/
def mtV (t : Triangle) (ray : Ray) : ℚ :=
  (1 / mtA t ray) * dot ray.direction (cross (vsub ray.origin t.v0) (vsub t.v1 t.v0))

/-- The ray parameter `t = (1/a) * (edge2 · q)` of the intersection
routine. -/
def mtT (t : Triangle) (ray : Ray) : ℚ :=
  (1 / mtA t ray) * dot (vsub t.v2 t.v0) (cross (vsub ray.origin t.v0) (vsub t.v1 t.v0))

theorem intersect_unfold (t : Triangle) (ray : Ray) :
    t.intersect ray =
      if mtA t ray > -eps6 ∧ mtA t ray < eps6 then none
      else if mtU t ray < 0 ∨ mtU t ray > 1 then none
      else if mtV t ray < 0 ∨ mtU t ray + mtV t ray > 1 then none
      else if mtT t ray > eps6 then some (mtT t ray) else none := by
  simp only [Triangle.intersect, mtA, mtU, mtV, mtT, eps6]

/-! ### Mesh bounds (src/lib.rs lines 127–135) -/

/-- `f32::MAX`, the initial value of the running minimum bound. -/
def f32MAX : ℚ := 2 ^ 128 - 2 ^ 104

/-- `f32::MIN`, the initial value of the running maximum bound. -/
def f32MIN : ℚ := -(2 ^ 128 - 2 ^ 104)

/-- Per-triangle AABB minimum corner, from `impl Bounded for Triangle`
(`self.v0.min(self.v1).min(self.v2)`). -/
def triMin (t : Triangle) : Vec3 := vmin (vmin t.v0 t.v1) t.v2

/-- Per-triangle AABB maximum corner, from `impl Bounded for Triangle`. -/
def triMax (t : Triangle) : Vec3 := vmax (vmax t.v0 t.v1) t.v2

/-- The mesh lower bound: fold of componentwise minima over all triangle
AABBs starting from `Vec3::splat(f32::MAX)` (src/lib.rs lines 128–135). -/
def meshMin (tris : List Triangle) : Vec3 :=
  tris.foldl (fun m t => vmin m (triMin t)) ⟨f32MAX, f32MAX, f32MAX⟩

/-- The mesh upper bound: fold of componentwise maxima over all triangle
AABBs starting from `Vec3::splat(f32::MIN)`. -/
def meshMax (tris : List Triangle) : Vec3 :=
  tris.foldl (fun m t => vmax m (triMax t)) ⟨f32MIN, f32MIN, f32MIN⟩

/-! ### Column span engine (src/lib.rs lines 155–187)

The BVH (`bvh::bvh::BVH`) is an external crate.  Per spec §4.2 its traversal
returns a candidate superset containing every triangle the ray truly
intersects, and the false positives are filtered out by
`Triangle::intersect` returning `None`.  The behaviourally equivalent model
is therefore to run the intersection over the full triangle list: the
multiset of accepted hits is identical, and sorting makes the resulting
list identical. -/

/-- The per-pixel ray: origin
`(min.x + (x+0.5)·pixel_size, min.y + (y+0.5)·pixel_size, min.z − 1)`,
direction `(0,0,1)` (src/lib.rs lines 157–163). -/
def pixelRay (minb : Vec3) (psize : ℚ) (x y : ℕ) : Ray :=
  ⟨⟨minb.x + ((x : ℚ) + 1/2) * psize, minb.y + ((y : ℚ) + 1/2) * psize, minb.z - 1⟩,
   ⟨0, 0, 1⟩⟩

/-- The list of z-crossings for a ray: each accepted intersection distance is
converted with `z = origin.z + dist * direction.z` (src/lib.rs lines
167–174). -/
def columnHits (tris : List Triangle) (ray : Ray) : List ℚ :=
  tris.filterMap fun tr =>
    (tr.intersect ray).map fun dist => ray.origin.z + dist * ray.direction.z

/-- The crossings sorted ascending, modelling
`hits.sort_by(|a, b| a.partial_cmp(b).unwrap())`.  A comparison sort on
rationals produces the unique ascending reordering, which
`List.insertionSort` computes. -/
def sortedHits (tris : List Triangle) (ray : Ray) : List ℚ :=
  List.insertionSort (· ≤ ·) (columnHits tris ray)

/-- Greedy pairing of consecutive sorted crossings, modelling the loop
`for i in (0..hits.len()).step_by(2) { if i + 1 < hits.len() { push } }`
(src/lib.rs lines 179–184): a trailing unpaired crossing is dropped. -/
def pairSpans : List ℚ → List (ℚ × ℚ)
  | a :: b :: rest => (a, b) :: pairSpans rest
  | _ => []

/-- The span list the program computes for pixel column `(x, y)`
(src/lib.rs lines 155–186). -/
def columnSpansAt (tris : List Triangle) (minb : Vec3) (psize : ℚ) (x y : ℕ) :
    List (ℚ × ℚ) :=
  pairSpans (sortedHits tris (pixelRay minb psize x y))

/-! ### Claim-side description of the span list (spec §4.3 steps 1–5) -/

/-- Pairing as the spec words it: the crossings at indices `(0,1), (2,3), …`
become `(enter, exit)` intervals; an odd trailing crossing is discarded. -/
def specPairs (l : List ℚ) : List (ℚ × ℚ) :=
  (List.range (l.length / 2)).map fun k => (l.getD (2 * k) 0, l.getD (2 * k + 1) 0)

/-- The spec's z-crossings of the upward ray from `(px, py, min.z − 1)`:
`z = origin.z + t` for every accepted ray–triangle intersection. -/
def claimCrossings (tris : List Triangle) (px py minz : ℚ) : List ℚ :=
  tris.filterMap fun tr =>
    (tr.intersect ⟨⟨px, py, minz - 1⟩, ⟨0, 0, 1⟩⟩).map fun d => (minz - 1) + d

/-- The span list as described by the spec: sort the crossings ascending and
pair them at indices `(0,1), (2,3), …`. -/
def claimSpanList (tris : List Triangle) (px py minz : ℚ) : List (ℚ × ℚ) :=
  specPairs (List.insertionSort (· ≤ ·) (claimCrossings tris px py minz))

/-! ### Characterization of the intersection routine -/

theorem intersect_eq_some_iff (t : Triangle) (ray : Ray) (d : ℚ) :
    t.intersect ray = some d ↔
      ¬(mtA t ray > -eps6 ∧ mtA t ray < eps6)
      ∧ ¬(mtU t ray < 0 ∨ mtU t ray > 1)
      ∧ ¬(mtV t ray < 0 ∨ mtU t ray + mtV t ray > 1)
      ∧ eps6 < mtT t ray ∧ d = mtT t ray := by
  rw [intersect_unfold]
  split_ifs with h1 h2 h3 h4 <;> simp_all
  tauto

/-- C3: `Triangle::intersect` returns nothing when `|a| < 1e-6` (ray parallel
to the triangle plane); returns nothing unless the barycentric coordinates
satisfy `0 ≤ u ≤ 1`, `0 ≤ v`, `u + v ≤ 1`; and otherwise returns
`t = f*(e2 · q)` exactly when `t > 1e-6`, returning nothing when the hit is
at or behind the origin. -/
theorem c3_intersect_contract (t : Triangle) (ray : Ray) :
    (|mtA t ray| < eps6 → t.intersect ray = none)
    ∧ (¬(0 ≤ mtU t ray ∧ mtU t ray ≤ 1 ∧ 0 ≤ mtV t ray ∧ mtU t ray + mtV t ray ≤ 1) →
        t.intersect ray = none)
    ∧ (eps6 ≤ |mtA t ray| → 0 ≤ mtU t ray → mtU t ray ≤ 1 → 0 ≤ mtV t ray →
        mtU t ray + mtV t ray ≤ 1 →
        t.intersect ray = if eps6 < mtT t ray then some (mtT t ray) else none) := by
  refine ⟨?_, ?_, ?_⟩
  · intro h
    rw [abs_lt] at h
    rw [intersect_unfold, if_pos ⟨h.1, h.2⟩]
  · intro h
    rw [intersect_unfold]
    split_ifs with h1 h2 h3 h4 <;> try rfl
    push_neg at h2 h3
    exact absurd ⟨h2.1, h2.2, h3.1, h3.2⟩ h
  · intro ha hu1 hu2 hv huv
    have hA : ¬(mtA t ray > -eps6 ∧ mtA t ray < eps6) := fun h =>
      absurd (abs_lt.mpr ⟨h.1, h.2⟩) (not_lt.mpr ha)
    have hU : ¬(mtU t ray < 0 ∨ mtU t ray > 1) := by
      push_neg
      exact ⟨hu1, hu2⟩
    have hV : ¬(mtV t ray < 0 ∨ mtU t ray + mtV t ray > 1) := by
      push_neg
      exact ⟨hv, huv⟩
    rw [intersect_unfold, if_neg hA, if_neg hU, if_neg hV]

/-- Shared concrete data: a triangle in the plane `z = 1`. -/
def triA : Triangle := { v0 := ⟨0, 0, 1⟩, v1 := ⟨3, 0, 1⟩, v2 := ⟨0, 3, 1⟩ }

/-- Shared concrete data: the same triangle translated to the plane `z = 2`. -/
def triB : Triangle := { v0 := ⟨0, 0, 2⟩, v1 := ⟨3, 0, 2⟩, v2 := ⟨0, 3, 2⟩ }

/-- Shared concrete data: an upward ray through `(1, 1)` starting at `z = 0`. -/
def rayW : Ray := ⟨⟨1, 1, 0⟩, ⟨0, 0, 1⟩⟩

theorem c3_witness :
    eps6 ≤ |mtA triA rayW| ∧
      triA.intersect rayW = (if eps6 < mtT triA rayW then some (mtT triA rayW) else none) := by
  have ha : eps6 ≤ |mtA triA rayW| := by
    norm_num [mtA, triA, rayW, dot, cross, vsub, eps6]
  have h1 : 0 ≤ mtU triA rayW := by norm_num [mtU, mtA, triA, rayW, dot, cross, vsub]
  have h2 : mtU triA rayW ≤ 1 := by norm_num [mtU, mtA, triA, rayW, dot, cross, vsub]
  have h3 : 0 ≤ mtV triA rayW := by norm_num [mtV, mtA, triA, rayW, dot, cross, vsub]
  have h4 : mtU triA rayW + mtV triA rayW ≤ 1 := by
    norm_num [mtU, mtV, mtA, triA, rayW, dot, cross, vsub]
  exact ⟨ha, (c3_intersect_contract triA rayW).2.2 ha h1 h2 h3 h4⟩

/-! ### Geometric facts about accepted intersections -/

/-- Cramer's-rule identity behind Möller–Trumbore for the fixed direction
`(0, 0, 1)`: the accepted hit lies at the barycentric combination of the
three vertices, so its z-value is that combination of the vertex
z-values. -/
theorem mt_z_identity (t : Triangle) (o : Vec3)
    (ha : mtA t ⟨o, ⟨0, 0, 1⟩⟩ ≠ 0) :
    o.z + mtT t ⟨o, ⟨0, 0, 1⟩⟩ =
      (1 - mtU t ⟨o, ⟨0, 0, 1⟩⟩ - mtV t ⟨o, ⟨0, 0, 1⟩⟩) * t.v0.z
        + mtU t ⟨o, ⟨0, 0, 1⟩⟩ * t.v1.z + mtV t ⟨o, ⟨0, 0, 1⟩⟩ * t.v2.z := by
  set ray : Ray := ⟨o, ⟨0, 0, 1⟩⟩ with hray
  apply mul_left_cancel₀ ha
  have hU : mtA t ray * mtU t ray =
      dot (vsub ray.origin t.v0) (cross ray.direction (vsub t.v2 t.v0)) := by
    rw [mtU, ← mul_assoc, mul_one_div_cancel ha, one_mul]
  have hV : mtA t ray * mtV t ray =
      dot ray.direction (cross (vsub ray.origin t.v0) (vsub t.v1 t.v0)) := by
    rw [mtV, ← mul_assoc, mul_one_div_cancel ha, one_mul]
  have hT : mtA t ray * mtT t ray =
      dot (vsub t.v2 t.v0) (cross (vsub ray.origin t.v0) (vsub t.v1 t.v0)) := by
    rw [mtT, ← mul_assoc, mul_one_div_cancel ha, one_mul]
  have expandR : mtA t ray *
      ((1 - mtU t ray - mtV t ray) * t.v0.z + mtU t ray * t.v1.z + mtV t ray * t.v2.z)
      = mtA t ray * t.v0.z + (mtA t ray * mtU t ray) * (t.v1.z - t.v0.z)
        + (mtA t ray * mtV t ray) * (t.v2.z - t.v0.z) := by ring
  have expandL : mtA t ray * (o.z + mtT t ray)
      = mtA t ray * o.z + mtA t ray * mtT t ray := by ring
  rw [expandR, expandL, hU, hV, hT]
  simp only [hray, mtA, dot, cross, vsub]
  ring

/-- A convex combination with nonnegative weights summing to one stays
between bounds on its three entries. -/
theorem combo_between (u v a b c mn mx : ℚ) (hu : 0 ≤ u) (hv : 0 ≤ v)
    (huv : u + v ≤ 1) (hmna : mn ≤ a) (hmnb : mn ≤ b) (hmnc : mn ≤ c)
    (hmxa : a ≤ mx) (hmxb : b ≤ mx) (hmxc : c ≤ mx) :
    mn ≤ (1 - u - v) * a + u * b + v * c ∧ (1 - u - v) * a + u * b + v * c ≤ mx := by
  have hw : (0:ℚ) ≤ 1 - u - v := by linarith
  constructor
  · nlinarith [mul_le_mul_of_nonneg_left hmna hw, mul_le_mul_of_nonneg_left hmnb hu,
      mul_le_mul_of_nonneg_left hmnc hv]
  · nlinarith [mul_le_mul_of_nonneg_left hmxa hw, mul_le_mul_of_nonneg_left hmxb hu,
      mul_le_mul_of_nonneg_left hmxc hv]

/-- An accepted intersection along an upward ray has its z-value between the
least and greatest vertex z-values of the triangle. -/
theorem hit_z_bounds (t : Triangle) (o : Vec3) (d : ℚ)
    (h : t.intersect ⟨o, ⟨0, 0, 1⟩⟩ = some d) :
    min (min t.v0.z t.v1.z) t.v2.z ≤ o.z + d
      ∧ o.z + d ≤ max (max t.v0.z t.v1.z) t.v2.z := by
  set ray : Ray := ⟨o, ⟨0, 0, 1⟩⟩ with hray
  obtain ⟨hA, hU, hV, _, hd⟩ := (intersect_eq_some_iff t ray d).mp h
  push_neg at hU hV
  have heps : (0:ℚ) < eps6 := by norm_num [eps6]
  have ha : mtA t ray ≠ 0 := by
    intro h0
    exact hA ⟨by rw [h0]; exact neg_lt_zero.mpr heps, by rw [h0]; exact heps⟩
  have hid := mt_z_identity t o (by rw [← hray] at *; exact ha)
  rw [← hray] at hid
  rw [hd, hid]
  have hb := combo_between (mtU t ray) (mtV t ray) t.v0.z t.v1.z t.v2.z
    (min (min t.v0.z t.v1.z) t.v2.z) (max (max t.v0.z t.v1.z) t.v2.z)
    hU.1 hV.1 hV.2
    (le_trans (min_le_left _ _) (min_le_left _ _))
    (le_trans (min_le_left _ _) (min_le_right _ _))
    (min_le_right _ _)
    (le_trans (le_max_left _ _) (le_max_left _ _))
    (le_trans (le_max_right _ _) (le_max_left _ _))
    (le_max_right _ _)
  exact hb

/-! ### Structure of the paired span list -/

theorem pairSpans_mem (l : List ℚ) (p : ℚ × ℚ) (hp : p ∈ pairSpans l) :
    p.1 ∈ l ∧ p.2 ∈ l := by
  induction l using pairSpans.induct with
  | case1 a b rest ih =>
    rw [pairSpans] at hp
    rcases List.mem_cons.mp hp with h | h
    · subst h
      exact ⟨List.mem_cons_self _ _, List.mem_cons_of_mem _ (List.mem_cons_self _ _)⟩
    · obtain ⟨h1, h2⟩ := ih h
      exact ⟨List.mem_cons_of_mem _ (List.mem_cons_of_mem _ h1),
        List.mem_cons_of_mem _ (List.mem_cons_of_mem _ h2)⟩
  | case2 l hl =>
    rw [pairSpans] at hp
    · simp at hp
    · exact hl

theorem pairSpans_sorted_structure (l : List ℚ) (hs : l.Sorted (· ≤ ·)) :
    (∀ p ∈ pairSpans l, p.1 ≤ p.2)
      ∧ (pairSpans l).Chain' (fun a b => a.2 ≤ b.1) := by
  induction l using pairSpans.induct with
  | case1 a b rest ih =>
    have hab : a ≤ b := (List.sorted_cons.mp hs).1 b (List.mem_cons_self _ _)
    have hrest : rest.Sorted (· ≤ ·) :=
      ((List.sorted_cons.mp (List.sorted_cons.mp hs).2).2)
    have hble : ∀ x ∈ rest, b ≤ x :=
      (List.sorted_cons.mp (List.sorted_cons.mp hs).2).1
    obtain ⟨ih1, ih2⟩ := ih hrest
    constructor
    · intro p hp
      rw [pairSpans] at hp
      rcases List.mem_cons.mp hp with h | h
      · subst h
        exact hab
      · exact ih1 p h
    · rw [pairSpans]
      rw [List.chain'_cons']
      refine ⟨?_, ih2⟩
      intro q hq
      have hqmem : q ∈ pairSpans rest := List.mem_of_mem_head? hq
      exact hble q.1 (pairSpans_mem rest q hqmem).1
  | case2 l hl =>
    rw [pairSpans]
    · exact ⟨fun p hp => absurd hp (List.not_mem_nil p), List.chain'_nil⟩
    · exact hl

/-- C4: every produced span list is monotone: each interval has
`enter ≤ exit`, and consecutive intervals satisfy
`exit of interval i ≤ enter of interval i+1` (sorted, non-overlapping). -/
theorem c4_span_monotone (tris : List Triangle) (minb : Vec3) (psize : ℚ)
    (x y : ℕ) :
    (∀ p ∈ columnSpansAt tris minb psize x y, p.1 ≤ p.2)
      ∧ (columnSpansAt tris minb psize x y).Chain' (fun a b => a.2 ≤ b.1) := by
  unfold columnSpansAt sortedHits
  exact pairSpans_sorted_structure _ (List.sorted_insertionSort _ _)

theorem c4_witness :
    ((1 : ℚ), (2 : ℚ)).1 ≤ ((1 : ℚ), (2 : ℚ)).2 := by
  refine (c4_span_monotone [triA, triB] (meshMin [triA, triB]) 2 0 0).1 (1, 2) ?_
  norm_num [columnSpansAt, sortedHits, columnHits, pixelRay, Triangle.intersect,
    vsub, dot, cross, meshMin, vmin, triMin, f32MAX, triA, triB,
    List.filterMap_cons, List.insertionSort, List.orderedInsert, pairSpans]

/-! ### Mesh bound facts -/

theorem foldl_vmin_z_le_init (l : List Triangle) (init : Vec3) :
    (l.foldl (fun m tr => vmin m (triMin tr)) init).z ≤ init.z := by
  induction l generalizing init with
  | nil => exact le_refl _
  | cons a rest ih =>
    exact le_trans (ih (vmin init (triMin a))) (min_le_left _ _)

theorem foldl_vmin_z_le_mem (l : List Triangle) (init : Vec3) (t : Triangle)
    (ht : t ∈ l) :
    (l.foldl (fun m tr => vmin m (triMin tr)) init).z ≤ (triMin t).z := by
  induction l generalizing init with
  | nil => exact absurd ht (List.not_mem_nil t)
  | cons a rest ih =>
    rcases List.mem_cons.mp ht with h | h
    · subst h
      exact le_trans (foldl_vmin_z_le_init rest (vmin init (triMin t)))
        (min_le_right _ _)
    · exact ih (vmin init (triMin a)) h

theorem foldl_vmax_init_le_z (l : List Triangle) (init : Vec3) :
    init.z ≤ (l.foldl (fun m tr => vmax m (triMax tr)) init).z := by
  induction l generalizing init with
  | nil => exact le_refl _
  | cons a rest ih =>
    exact le_trans (le_max_left _ _) (ih (vmax init (triMax a)))

theorem foldl_vmax_mem_le_z (l : List Triangle) (init : Vec3) (t : Triangle)
    (ht : t ∈ l) :
    (triMax t).z ≤ (l.foldl (fun m tr => vmax m (triMax tr)) init).z := by
  induction l generalizing init with
  | nil => exact absurd ht (List.not_mem_nil t)
  | cons a rest ih =>
    rcases List.mem_cons.mp ht with h | h
    · subst h
      exact le_trans (le_max_right _ _)
        (foldl_vmax_init_le_z rest (vmax init (triMax t)))
    · exact ih (vmax init (triMax a)) h

/-- Every z-crossing the column engine collects lies between the mesh z
bounds. -/
theorem columnHits_bounds (tris : List Triangle) (psize : ℚ) (x y : ℕ) (z : ℚ)
    (hz : z ∈ columnHits tris (pixelRay (meshMin tris) psize x y)) :
    (meshMin tris).z ≤ z ∧ z ≤ (meshMax tris).z := by
  obtain ⟨tr, htr, hmap⟩ := List.mem_filterMap.mp hz
  obtain ⟨d, hd, hzd⟩ := Option.map_eq_some'.mp hmap
  set o : Vec3 := (pixelRay (meshMin tris) psize x y).origin with ho
  have hray : pixelRay (meshMin tris) psize x y = ⟨o, ⟨0, 0, 1⟩⟩ := rfl
  rw [hray] at hd
  have hb := hit_z_bounds tr o d hd
  have hzval : z = o.z + d := by
    rw [← hzd]
    show o.z + d * (1:ℚ) = o.z + d
    rw [mul_one]
  have h1 : (meshMin tris).z ≤ min (min tr.v0.z tr.v1.z) tr.v2.z := by
    have := foldl_vmin_z_le_mem tris ⟨f32MAX, f32MAX, f32MAX⟩ tr htr
    simpa [meshMin, triMin, vmin] using this
  have h2 : max (max tr.v0.z tr.v1.z) tr.v2.z ≤ (meshMax tris).z := by
    have := foldl_vmax_mem_le_z tris ⟨f32MIN, f32MIN, f32MIN⟩ tr htr
    simpa [meshMax, triMax, vmax] using this
  rw [hzval]
  exact ⟨le_trans h1 hb.1, le_trans hb.2 h2⟩

/-! ### NaN-propagation model of the intersection routine

`f32` values are modelled as `Option ℚ` with `none` playing NaN: arithmetic
propagates NaN, and every ordered comparison involving NaN is false (IEEE
semantics, which is what Rust's `<`, `>` and `partial_cmp` implement).
Division by a (non-NaN) zero is modelled as NaN; in `Triangle::intersect`
that case is unreachable because the parallel-plane guard already returned
`None` whenever `|a| < 1e-6`. -/

/-- An `f32` value: `some q` for a real value, `none` for NaN. -/
abbrev FQ := Option ℚ

/-- NaN-propagating negation. -/
def fneg : FQ → FQ
  | some a => some (-a)
  | none => none

/-- NaN-propagating addition. -/
def fadd : FQ → FQ → FQ
  | some a, some b => some (a + b)
  | _, _ => none

/-- NaN-propagating subtraction. -/
def fsub : FQ → FQ → FQ
  | some a, some b => some (a - b)
  | _, _ => none

/-- NaN-propagating multiplication. -/
def fmul : FQ → FQ → FQ
  | some a, some b => some (a * b)
  | _, _ => none

/-- NaN-propagating division (division by zero modelled as NaN; unreachable
in the intersection routine past the parallel guard). -/
def fdiv : FQ → FQ → FQ
  | some a, some b => if b = 0 then none else some (a / b)
  | _, _ => none

/-- IEEE strict less-than: false whenever either side is NaN. -/
def flt : FQ → FQ → Bool
  | some a, some b => decide (a < b)
  | _, _ => false

/-- IEEE strict greater-than: false whenever either side is NaN. -/
def fgt (a b : FQ) : Bool := flt b a

/-- Model of `f32::partial_cmp`: `none` exactly when a NaN is involved. -/
def fcmp : FQ → FQ → Option Ordering
  | some a, some b => some (compare a b)
  | _, _ => none

/-- A vector of possibly-NaN components. -/
structure Vec3N where
  x : FQ
  y : FQ
  z : FQ
deriving DecidableEq

/-- Componentwise subtraction in the NaN model. -/
def vsubN (a b : Vec3N) : Vec3N := ⟨fsub a.x b.x, fsub a.y b.y, fsub a.z b.z⟩

/-- Dot product in the NaN model. -/
def dotN (a b : Vec3N) : FQ :=
  fadd (fadd (fmul a.x b.x) (fmul a.y b.y)) (fmul a.z b.z)

/-- Cross product in the NaN model. -/
def crossN (a b : Vec3N) : Vec3N :=
  ⟨fsub (fmul a.y b.z) (fmul a.z b.y),
   fsub (fmul a.z b.x) (fmul a.x b.z),
   fsub (fmul a.x b.y) (fmul a.y b.x)⟩

/-- A triangle with possibly-NaN vertices. -/
structure TriangleN where
  v0 : Vec3N
  v1 : Vec3N
  v2 : Vec3N
deriving DecidableEq

/-- A ray with possibly-NaN components. -/
structure RayN where
  origin : Vec3N
  direction : Vec3N
deriving DecidableEq

/-- `Triangle::intersect` in the NaN model, clause by clause from
src/lib.rs lines 51–84 with IEEE comparison semantics. -/
def TriangleN.intersect (t : TriangleN) (ray : RayN) : Option FQ :=
  let epsilon : FQ := some (1 / 1000000)
  let edge1 := vsubN t.v1 t.v0
  let edge2 := vsubN t.v2 t.v0
  let h := crossN ray.direction edge2
  let a := dotN edge1 h
  if fgt a (fneg epsilon) && flt a epsilon then none
  else
    let f := fdiv (some 1) a
    let s := vsubN ray.origin t.v0
    let u := fmul f (dotN s h)
    if flt u (some 0) || fgt u (some 1) then none
    else
      let q := crossN s edge1
      let v := fmul f (dotN ray.direction q)
      if flt v (some 0) || fgt (fadd u v) (some 1) then none
      else
        let t' := fmul f (dotN edge2 q)
        if fgt t' epsilon then some t' else none

theorem fgt_eq_true_right (p : FQ) (e : ℚ) (h : fgt p (some e) = true) :
    ∃ q : ℚ, p = some q := by
  cases p with
  | none => simp [fgt, flt] at h
  | some q => exact ⟨q, rfl⟩

/-- An accepted intersection parameter in the NaN model is always a real
value: a NaN parameter fails the final `t > 1e-6` comparison. -/
theorem intersectN_some_real (t : TriangleN) (r : RayN) (d : FQ)
    (hd : t.intersect r = some d) : ∃ q : ℚ, d = some q := by
  simp only [TriangleN.intersect] at hd
  split_ifs at hd with h1 h2 h3 h4
  obtain ⟨q, hq⟩ := fgt_eq_true_right _ _ h4
  rw [hq] at hd
  exact ⟨q, (Option.some.inj hd).symm⟩

/-- C10: `Triangle::intersect` never returns `Some(NaN)` — a NaN parameter
always fails the final `t > 1e-6` test, even for NaN vertices — so every z
pushed for a column is non-NaN, and the sort comparator
(`partial_cmp(..).unwrap()`) never sees a `None` comparison. -/
theorem c10_no_nan :
    (∀ (t : TriangleN) (r : RayN) (d : FQ), t.intersect r = some d → d ≠ none)
      ∧ ∀ (a b : FQ), a ≠ none → b ≠ none → fcmp a b ≠ none := by
  constructor
  · intro t r d hd
    obtain ⟨q, hq⟩ := intersectN_some_real t r d hd
    rw [hq]
    simp
  · intro a b ha hb
    cases a with
    | none => exact absurd rfl ha
    | some qa =>
      cases b with
      | none => exact absurd rfl hb
      | some qb => simp [fcmp]

/-- Shared concrete data: `triA` lifted into the NaN model. -/
def triAN : TriangleN :=
  { v0 := ⟨some 0, some 0, some 1⟩, v1 := ⟨some 3, some 0, some 1⟩,
    v2 := ⟨some 0, some 3, some 1⟩ }

/-- Shared concrete data: `rayW` lifted into the NaN model. -/
def rayWN : RayN := ⟨⟨some 1, some 1, some 0⟩, ⟨some 0, some 0, some 1⟩⟩

theorem c10_witness :
    (some (1 : ℚ) : FQ) ≠ none ∧ fcmp (some 0) (some 1) ≠ none := by
  have hval : TriangleN.intersect triAN rayWN = some (some 1) := by
    norm_num [TriangleN.intersect, triAN, rayWN, vsubN, dotN, crossN,
      fadd, fsub, fmul, fdiv, fneg, flt, fgt]
  exact ⟨c10_no_nan.1 triAN rayWN (some 1) hval,
    c10_no_nan.2 (some 0) (some 1) (by simp) (by simp)⟩

/-- C5 (amended): in exact rational arithmetic every span endpoint the
column engine produces lies within `[min.z, max.z]` of the mesh bounds,
and an intersection can never hand a NaN parameter to the hit list (in
the NaN model the accepted parameter is always a real value).  The
original claim's finiteness clause is false of the program: binary32
overflow can turn `edge2 · q` into `+∞`, the acceptance test `t > 1e-6`
passes for `t = +∞`, and the span list then carries a non-finite
endpoint — see `c5_counterexample` in the extended IEEE model below. -/
theorem c5_span_bounds (tris : List Triangle) (psize : ℚ) (x y : ℕ) :
    (∀ p ∈ columnSpansAt tris (meshMin tris) psize x y,
        ((meshMin tris).z ≤ p.1 ∧ p.1 ≤ (meshMax tris).z)
          ∧ ((meshMin tris).z ≤ p.2 ∧ p.2 ≤ (meshMax tris).z))
      ∧ ∀ (t : TriangleN) (r : RayN) (d : FQ),
          t.intersect r = some d → ∃ q : ℚ, d = some q := by
  constructor
  · intro p hp
    obtain ⟨h1, h2⟩ := pairSpans_mem _ p hp
    have hperm := List.perm_insertionSort (fun x1 x2 : ℚ => x1 ≤ x2)
      (columnHits tris (pixelRay (meshMin tris) psize x y))
    rw [sortedHits] at h1 h2
    exact ⟨columnHits_bounds tris psize x y p.1 (hperm.mem_iff.mp h1),
      columnHits_bounds tris psize x y p.2 (hperm.mem_iff.mp h2)⟩
  · exact intersectN_some_real

theorem c5_witness :
    ((meshMin [triA, triB]).z ≤ (1 : ℚ) ∧ (1 : ℚ) ≤ (meshMax [triA, triB]).z)
      ∧ ((meshMin [triA, triB]).z ≤ (2 : ℚ) ∧ (2 : ℚ) ≤ (meshMax [triA, triB]).z) := by
  refine (c5_span_bounds [triA, triB] 2 0 0).1 (1, 2) ?_
  norm_num [columnSpansAt, sortedHits, columnHits, pixelRay, Triangle.intersect,
    vsub, dot, cross, meshMin, vmin, triMin, f32MAX, triA, triB,
    List.filterMap_cons, List.insertionSort, List.orderedInsert, pairSpans]

/-! ### The greedy pairing loop agrees with the indexed description -/

theorem pairSpans_eq_specPairs (l : List ℚ) : pairSpans l = specPairs l := by
  induction l using pairSpans.induct with
  | case1 a b rest ih =>
    rw [pairSpans, ih, specPairs, specPairs]
    have hlen : (a :: b :: rest).length / 2 = rest.length / 2 + 1 := by
      simp only [List.length_cons]
      omega
    rw [hlen, List.range_succ_eq_map, List.map_cons, List.map_map]
    congr 1
  | case2 l hl =>
    rw [pairSpans]
    cases l with
    | nil => simp [specPairs]
    | cons a tail =>
      cases tail with
      | nil => simp [specPairs]
      | cons b rest => exact (hl a b rest rfl).elim
    exact hl

/-- C2: for every pixel column, the program's span list equals the spec's
description: collect all z-crossings of the upward ray from
`(px, py, min.z − 1)`, sort ascending, pair at indices `(0,1), (2,3), …`,
discarding an unpaired trailing crossing. -/
theorem c2_span_pairing (tris : List Triangle) (psize : ℚ) (x y : ℕ) :
    columnSpansAt tris (meshMin tris) psize x y =
      claimSpanList tris ((meshMin tris).x + ((x : ℚ) + 1/2) * psize)
        ((meshMin tris).y + ((y : ℚ) + 1/2) * psize) (meshMin tris).z := by
  unfold columnSpansAt claimSpanList sortedHits columnHits claimCrossings pixelRay
  rw [pairSpans_eq_specPairs]
  dsimp only
  simp only [mul_one]

/-! ### Layer rasterizer (src/lib.rs lines 210–242)

The span grid is the flat row-major vector built by
`(0..height).flat_map(|y| (0..width).map(|x| ...))`; the layer loop reads
`spans[y * width + x]` and writes pixel `(x, height − 1 − y)`.  The image is
modelled as a function from coordinates, starting all-zero
(`GrayImage::new` zero-fills) and updated by each `put_pixel`. -/

/-- The row-major span grid (src/lib.rs lines 155–187), indexed
`y * width + x`, built with the program's bounds `meshMin`. -/
def spanGrid (tris : List Triangle) (psize : ℚ) (width height : ℕ) :
    List (List (ℚ × ℚ)) :=
  (List.range height).flatMap fun y =>
    (List.range width).map fun x => columnSpansAt tris (meshMin tris) psize x y

/-- The slab membership test of the layer loop: the pixel is inside iff some
span `(enter, exit)` satisfies `z ≥ enter − 1e-4 && z ≤ exit + 1e-4`
(src/lib.rs lines 225–234; the loop breaks at the first success, which is
`List.any`). -/
def insideAt (spans : List (ℚ × ℚ)) (z : ℚ) : Bool :=
  spans.any fun s => decide (z ≥ s.1 - eps4) && decide (z ≤ s.2 + eps4)

/-- The traversal order of the nested pixel loops
`for y in 0..height { for x in 0..width { ... } }`. -/
def coordsList (width height : ℕ) : List (ℕ × ℕ) :=
  (List.range height).flatMap fun y => (List.range width).map fun x => (x, y)

/-- The bitmap after the layer loop: starts all zero, and each visited pixel
`(x, y)` writes `255` or `0` to image coordinate `(x, height − 1 − y)`
(src/lib.rs lines 218–242). -/
def imageFor (spans : List (List (ℚ × ℚ))) (width height : ℕ) (z : ℚ) :
    ℕ × ℕ → ℕ :=
  (coordsList width height).foldl
    (fun g c => Function.update g (c.1, height - 1 - c.2)
      (if insideAt (spans.getD (c.2 * width + c.1) []) z then 255 else 0))
    (fun _ => 0)

theorem mem_coordsList (width height : ℕ) (c : ℕ × ℕ) :
    c ∈ coordsList width height ↔ c.1 < width ∧ c.2 < height := by
  obtain ⟨cx, cy⟩ := c
  simp only [coordsList, List.mem_flatMap, List.mem_map, List.mem_range,
    Prod.mk.injEq]
  constructor
  · rintro ⟨y, hy, x, hx, rfl, rfl⟩
    exact ⟨hx, hy⟩
  · rintro ⟨h1, h2⟩
    exact ⟨cy, h2, cx, h1, rfl, rfl⟩

theorem coordsList_nodup (width height : ℕ) : (coordsList width height).Nodup := by
  rw [coordsList, List.nodup_flatMap]
  constructor
  · intro y _
    exact (List.nodup_range width).map fun a b hab => by
      simpa using congrArg Prod.fst hab
  · apply List.Pairwise.imp ?_ (List.pairwise_lt_range height)
    intro a b hab c hca hcb
    obtain ⟨xa, _, h1⟩ := List.mem_map.mp hca
    obtain ⟨xb, _, h2⟩ := List.mem_map.mp hcb
    have : a = b := by
      have e1 := congrArg Prod.snd h1
      have e2 := congrArg Prod.snd h2
      simp only at e1 e2
      omega
    exact absurd this (Nat.ne_of_lt hab)

/-! ### Write-once grid folds -/

theorem foldl_update_not_mem (l : List (ℕ × ℕ)) (tgtf : ℕ × ℕ → ℕ × ℕ)
    (valf : ℕ × ℕ → ℕ) (g0 : ℕ × ℕ → ℕ) (k : ℕ × ℕ) (hk : k ∉ l.map tgtf) :
    l.foldl (fun g c => Function.update g (tgtf c) (valf c)) g0 k = g0 k := by
  induction l generalizing g0 with
  | nil => rfl
  | cons a rest ih =>
    have h1 : k ≠ tgtf a := fun h =>
      hk (by rw [List.map_cons, h]; exact List.mem_cons_self _ _)
    have h2 : k ∉ List.map tgtf rest := fun h =>
      hk (by rw [List.map_cons]; exact List.mem_cons_of_mem _ h)
    rw [List.foldl_cons, ih _ h2, Function.update_noteq h1]

theorem foldl_update_mem (l : List (ℕ × ℕ)) (tgtf : ℕ × ℕ → ℕ × ℕ)
    (valf : ℕ × ℕ → ℕ) (g0 : ℕ × ℕ → ℕ) (hnd : (l.map tgtf).Nodup) (c : ℕ × ℕ)
    (hc : c ∈ l) :
    l.foldl (fun g c' => Function.update g (tgtf c') (valf c')) g0 (tgtf c)
      = valf c := by
  induction l generalizing g0 with
  | nil => exact absurd hc (List.not_mem_nil c)
  | cons a rest ih =>
    rw [List.map_cons, List.nodup_cons] at hnd
    rw [List.foldl_cons]
    rcases List.mem_cons.mp hc with h | h
    · subst h
      rw [foldl_update_not_mem rest tgtf valf _ _ hnd.1, Function.update_same]
    · exact ih _ hnd.2 h

/-! ### Indexing into the span grid -/

theorem map_range_getD {α : Type} (g : ℕ → α) (h n : ℕ) (d : α) (hn : n < h) :
    ((List.range h).map g).getD n d = g n := by
  rw [List.getD_eq_getElem?_getD, List.getElem?_map, List.getElem?_range hn]
  rfl

theorem flatten_getD {α : Type} (rows : List (List α)) (w : ℕ)
    (hw : ∀ r ∈ rows, r.length = w) (y x : ℕ) (d : α) (hx : x < w)
    (hy : y < rows.length) :
    rows.flatten.getD (y * w + x) d = (rows.getD y []).getD x d := by
  induction rows generalizing y with
  | nil => exact absurd hy (Nat.not_lt_zero y)
  | cons r rest ih =>
    have hlen : r.length = w := hw r (List.mem_cons_self _ _)
    cases y with
    | zero =>
      rw [List.flatten_cons, Nat.zero_mul, Nat.zero_add,
        List.getD_append _ _ _ _ (by rw [hlen]; exact hx), List.getD_cons_zero]
    | succ y' =>
      have hge : r.length ≤ (y' + 1) * w + x := by
        rw [hlen]
        calc w ≤ (y' + 1) * w := Nat.le_mul_of_pos_left w (Nat.succ_pos y')
        _ ≤ (y' + 1) * w + x := Nat.le_add_right _ _
      rw [List.flatten_cons, List.getD_append_right _ _ _ _ hge, List.getD_cons_succ]
      have harith : (y' + 1) * w + x - r.length = y' * w + x := by
        rw [hlen]
        have : (y' + 1) * w = y' * w + w := by ring
        omega
      rw [harith]
      exact ih (fun r' hr' => hw r' (List.mem_cons_of_mem _ hr')) y'
        (Nat.lt_of_succ_lt_succ hy)

theorem spanGrid_getD (tris : List Triangle) (psize : ℚ) (w h x y : ℕ)
    (hx : x < w) (hy : y < h) :
    (spanGrid tris psize w h).getD (y * w + x) []
      = columnSpansAt tris (meshMin tris) psize x y := by
  have hflat : spanGrid tris psize w h =
      ((List.range h).map fun yy =>
        (List.range w).map fun xx => columnSpansAt tris (meshMin tris) psize xx yy).flatten :=
    rfl
  rw [hflat, flatten_getD _ w ?_ y x [] hx ?_]
  · rw [map_range_getD _ h y [] hy, map_range_getD _ w x [] hx]
  · intro r hr
    obtain ⟨yy, _, hyy⟩ := List.mem_map.mp hr
    rw [← hyy, List.length_map, List.length_range]
  · rw [List.length_map, List.length_range]
    exact hy

theorem insideAt_iff (spans : List (ℚ × ℚ)) (z : ℚ) :
    insideAt spans z = true ↔ ∃ p ∈ spans, p.1 - eps4 ≤ z ∧ z ≤ p.2 + eps4 := by
  simp [insideAt, List.any_eq_true, ge_iff_le]

theorem imageFor_apply (spans : List (List (ℚ × ℚ))) (w h : ℕ) (z : ℚ)
    (x y : ℕ) (hx : x < w) (hy : y < h) :
    imageFor spans w h z (x, h - 1 - y)
      = if insideAt (spans.getD (y * w + x) []) z then 255 else 0 := by
  have hc : (x, y) ∈ coordsList w h := (mem_coordsList w h (x, y)).mpr ⟨hx, hy⟩
  have hnd : ((coordsList w h).map fun c => (c.1, h - 1 - c.2)).Nodup := by
    refine List.Nodup.map_on ?_ (coordsList_nodup w h)
    intro c1 hc1 c2 hc2 heq
    have m1 := (mem_coordsList w h c1).mp hc1
    have m2 := (mem_coordsList w h c2).mp hc2
    have e1 := congrArg Prod.fst heq
    have e2 := congrArg Prod.snd heq
    simp only at e1 e2
    refine Prod.ext e1 ?_
    omega
  exact foldl_update_mem (coordsList w h) (fun c => (c.1, h - 1 - c.2))
    (fun c => if insideAt (spans.getD (c.2 * w + c.1) []) z then 255 else 0)
    (fun _ => 0) hnd (x, y) hc

/-- Layer z: `z_i = start_z + i * layer_height_mm` (src/lib.rs line 211). -/
def zOfLayer (startz lh : ℚ) (i : ℕ) : ℚ := startz + (i : ℚ) * lh

/-- C1: on the emitted bitmap for layer `i` (at `z_i = min.z + i·lh`), the
pixel at image row `height − 1 − y`, column `x`, has value 255 iff the span
list of column `(x, y)` contains an interval `(enter, exit)` with
`enter − 1e-4 ≤ z_i ≤ exit + 1e-4`, and value 0 otherwise. -/
theorem c1_layer_pixel (tris : List Triangle) (psize lh : ℚ) (i : ℕ)
    (w h x y : ℕ) (hx : x < w) (hy : y < h) :
    (imageFor (spanGrid tris psize w h) w h (zOfLayer (meshMin tris).z lh i)
        (x, h - 1 - y) = 255
      ↔ ∃ p ∈ columnSpansAt tris (meshMin tris) psize x y,
          p.1 - eps4 ≤ zOfLayer (meshMin tris).z lh i
            ∧ zOfLayer (meshMin tris).z lh i ≤ p.2 + eps4)
    ∧ (imageFor (spanGrid tris psize w h) w h (zOfLayer (meshMin tris).z lh i)
        (x, h - 1 - y) = 0
      ↔ ¬ ∃ p ∈ columnSpansAt tris (meshMin tris) psize x y,
          p.1 - eps4 ≤ zOfLayer (meshMin tris).z lh i
            ∧ zOfLayer (meshMin tris).z lh i ≤ p.2 + eps4) := by
  set z := zOfLayer (meshMin tris).z lh i with hz
  rw [imageFor_apply (spanGrid tris psize w h) w h z x y hx hy,
    spanGrid_getD tris psize w h x y hx hy]
  by_cases hin : insideAt (columnSpansAt tris (meshMin tris) psize x y) z = true
  · rw [if_pos hin]
    have hex := (insideAt_iff _ _).mp hin
    exact ⟨⟨fun _ => hex, fun _ => rfl⟩,
      ⟨fun h0 => absurd h0 (by norm_num), fun hn => absurd hex hn⟩⟩
  · rw [if_neg hin]
    have hnex : ¬ ∃ p ∈ columnSpansAt tris (meshMin tris) psize x y,
        p.1 - eps4 ≤ z ∧ z ≤ p.2 + eps4 :=
      fun hex => hin ((insideAt_iff _ _).mpr hex)
    exact ⟨⟨fun h0 => absurd h0 (by norm_num), fun hex => absurd hex hnex⟩,
      ⟨fun _ => hnex, fun _ => rfl⟩⟩

theorem c1_witness :
    imageFor (spanGrid [triA, triB] 2 1 1) 1 1
      (zOfLayer (meshMin [triA, triB]).z (1/2) 1) (0, 0) = 255 := by
  have h01 : (0 : ℕ) < 1 := Nat.zero_lt_one
  have hmem : ∃ p ∈ columnSpansAt [triA, triB] (meshMin [triA, triB]) 2 0 0,
      p.1 - eps4 ≤ zOfLayer (meshMin [triA, triB]).z (1/2) 1
        ∧ zOfLayer (meshMin [triA, triB]).z (1/2) 1 ≤ p.2 + eps4 := by
    refine ⟨(1, 2), ?_, ?_, ?_⟩
    · norm_num [columnSpansAt, sortedHits, columnHits, pixelRay, Triangle.intersect,
        vsub, dot, cross, meshMin, vmin, triMin, f32MAX, triA, triB,
        List.filterMap_cons, List.insertionSort, List.orderedInsert, pairSpans]
    · norm_num [zOfLayer, meshMin, vmin, triMin, f32MAX, triA, triB, eps4]
    · norm_num [zOfLayer, meshMin, vmin, triMin, f32MAX, triA, triB, eps4]
  exact (c1_layer_pixel [triA, triB] 2 (1/2) 1 1 1 0 0 h01 h01).1.mpr hmem

/-! ### Configuration and z labelling (src/lib.rs lines 11–21, 91–93,
200–215, 244–249) -/

/-- The slicer configuration, modelling `pub struct SlicerConfig`. -/
structure SlicerConfig where
  input_path : String
  output_dir : String
  pixel_size_um : ℚ
  layer_height_um : ℚ
  zero_slice_position : Bool
  delete_below_zero : Bool
  delete_output_dir : Bool
  open_output_dir : Bool

/-- Rust's `f32::round`: round to the nearest integer, half-way cases away
from zero. -/
def rustRound (q : ℚ) : ℤ := if 0 ≤ q then ⌊q + 1/2⌋ else -⌊-q + 1/2⌋

/-- The layer count `((end_z - start_z) / layer_height_mm).ceil() as u32`
(src/lib.rs line 204; the float-to-unsigned cast clamps negatives to 0,
which `Int.toNat` does). -/
def numLayers (startz endz lh : ℚ) : ℕ := (⌈(endz - startz) / lh⌉).toNat

/-- The micrometer z stamp of layer `i` (src/lib.rs lines 244–248):
`round(i * layer_height_um)` when `zero_slice_position` is set, else
`round(z * 1000)` with `z = start_z + i * layer_height_mm` and
`layer_height_mm = layer_height_um / 1000`. -/
def zStamp (cfg : SlicerConfig) (startz : ℚ) (i : ℕ) : ℤ :=
  if cfg.zero_slice_position then rustRound ((i : ℚ) * cfg.layer_height_um)
  else rustRound (zOfLayer startz (cfg.layer_height_um / 1000) i * 1000)

/-- C6: the z stamp of emitted layer `i` is `round(z_i * 1000)` micrometers
(sign preserved) by default, and `round(i * layer_height_um)` micrometers —
non-negative, 0 for the bottom layer, independent of the mesh's world z —
when `zero_slice_position` is enabled. -/
theorem c6_zstamp (cfg : SlicerConfig) (startz : ℚ) (i : ℕ) :
    (cfg.zero_slice_position = true →
      zStamp cfg startz i = rustRound ((i : ℚ) * cfg.layer_height_um)
        ∧ (0 < cfg.layer_height_um → 0 ≤ zStamp cfg startz i)
        ∧ (i = 0 → zStamp cfg startz i = 0)
        ∧ ∀ startz' : ℚ, zStamp cfg startz i = zStamp cfg startz' i)
    ∧ (cfg.zero_slice_position = false →
      zStamp cfg startz i =
        rustRound ((startz + (i : ℚ) * (cfg.layer_height_um / 1000)) * 1000)) := by
  constructor
  · intro hzs
    have heq : zStamp cfg startz i = rustRound ((i : ℚ) * cfg.layer_height_um) := by
      rw [zStamp, if_pos hzs]
    refine ⟨heq, ?_, ?_, ?_⟩
    · intro hpos
      rw [heq, rustRound, if_pos (by positivity)]
      have : (0 : ℚ) ≤ (i : ℚ) * cfg.layer_height_um + 1/2 := by positivity
      exact Int.le_floor.mpr (by exact_mod_cast this)
    · intro hi
      rw [heq, hi]
      norm_num [rustRound]
    · intro startz'
      rw [heq, zStamp, if_pos hzs]
  · intro hzs
    rw [zStamp, if_neg (by rw [hzs]; exact Bool.false_ne_true), zOfLayer]

/-- Shared concrete data: a configuration with `zero_slice_position` set. -/
def cfgZ : SlicerConfig :=
  { input_path := "model.stl", output_dir := "out", pixel_size_um := 100/3,
    layer_height_um := 20, zero_slice_position := true,
    delete_below_zero := false, delete_output_dir := true,
    open_output_dir := false }

theorem c6_witness : 0 ≤ zStamp cfgZ 5 3 := by
  exact ((c6_zstamp cfgZ 5 3).1 rfl).2.1 (by norm_num [cfgZ])

/-! ### Z labels are not distinct (claim C7)

The spec guarantees distinct output paths per layer (no file-system
contention in the parallel layer phase), but the label computation breaks
this for legal configurations: with `layer_height_um = 2/5` (0.4 µm,
positive) the stamps of layers 0 and 1 are both `round(0.4·i) = 0`, and
with `layer_height_um = 1` the conversion `i as f32` collapses the indices
`16777216` and `16777217` (`2^24 + 1` is not representable in binary32), so
two layer tasks write the same file.  The collision theorem
`c7_label_collision` appears after the binary32 rounding model below. -/

/-- Shared concrete data: a configuration with a sub-micrometer layer
height `0.4 µm` and `zero_slice_position` enabled. -/
def cfg7 : SlicerConfig :=
  { input_path := "model.stl", output_dir := "out", pixel_size_um := 100/3,
    layer_height_um := 2/5, zero_slice_position := true,
    delete_below_zero := false, delete_output_dir := true,
    open_output_dir := false }

/-! ### Layer-phase progress events (src/lib.rs lines 210–260)

Each layer task either returns early (`delete_below_zero && z < 0.0`,
before touching the counter) or completes: it increments the atomic counter
with `fetch_add(1) + 1`, so across a run the counter values `1..=E` (for `E`
emitted layers) are each observed exactly once, in some order.  An event is
sent at a completion iff its counter value `c` satisfies
`c % 5 == 0 || c == num_layers`.  The set of firing counter values is
therefore order-independent and is modelled as a filtered range. -/

/-- The layer indices that are emitted (not skipped by the
`delete_below_zero && z < 0.0` early return, src/lib.rs lines 213–215). -/
def emittedLayers (cfg : SlicerConfig) (startz lh : ℚ) (n : ℕ) : List ℕ :=
  (List.range n).filter fun i =>
    !(cfg.delete_below_zero && decide (zOfLayer startz lh i < 0))

/-- The event condition `completed % 5 == 0 || completed == num_layers`
(src/lib.rs line 254). -/
def progressFires (n c : ℕ) : Bool := c % 5 == 0 || c == n

/-- The counter values at which a progress event fires during the layer
phase. -/
def layerEvents (cfg : SlicerConfig) (startz lh : ℚ) (n : ℕ) : List ℕ :=
  (List.range' 1 (emittedLayers cfg startz lh n).length).filter fun c =>
    progressFires n c

/-- C8 (amended): a progress event fires exactly at completions whose
counter value is a multiple of 5 or equals `num_layers`; when no layer is
skipped the final layer's completion (counter = `num_layers`) always fires.
When layers are skipped the counter never reaches `num_layers`, so the
final completion fires only if the emitted count is a multiple of 5. -/
theorem c8_progress_events (cfg : SlicerConfig) (startz lh : ℚ) (n : ℕ) :
    (∀ c, c ∈ layerEvents cfg startz lh n ↔
        1 ≤ c ∧ c ≤ (emittedLayers cfg startz lh n).length
          ∧ (c % 5 = 0 ∨ c = n))
    ∧ ((emittedLayers cfg startz lh n).length = n → 1 ≤ n →
        progressFires n (emittedLayers cfg startz lh n).length = true) := by
  constructor
  · intro c
    simp only [layerEvents, List.mem_filter, List.mem_range'_1, progressFires,
      Bool.or_eq_true, beq_iff_eq]
    constructor
    · rintro ⟨⟨h1, h2⟩, h3⟩
      exact ⟨h1, by omega, h3⟩
    · rintro ⟨h1, h2, h3⟩
      exact ⟨⟨h1, by omega⟩, h3⟩
  · intro hE _
    rw [hE]
    simp [progressFires]

/-- Shared concrete data: a flat triangle at `z = −1`. -/
def triC : Triangle := { v0 := ⟨0, 0, -1⟩, v1 := ⟨1, 0, -1⟩, v2 := ⟨0, 1, -1⟩ }

/-- Shared concrete data: a flat triangle at `z = 6`. -/
def triD : Triangle := { v0 := ⟨0, 0, 6⟩, v1 := ⟨1, 0, 6⟩, v2 := ⟨0, 1, 6⟩ }

/-- Shared concrete data: a 1 mm layer-height configuration with
`delete_below_zero` enabled. -/
def cfg8 : SlicerConfig :=
  { input_path := "model.stl", output_dir := "out", pixel_size_um := 100/3,
    layer_height_um := 1000, zero_slice_position := false,
    delete_below_zero := true, delete_output_dir := true,
    open_output_dir := false }

theorem c8_counterexample :
    (meshMin [triC, triD]).z = -1
    ∧ (meshMax [triC, triD]).z = 6
    ∧ numLayers (-1) 6 (cfg8.layer_height_um / 1000) = 7
    ∧ (emittedLayers cfg8 (-1) (cfg8.layer_height_um / 1000) 7).length = 6
    ∧ progressFires 7 6 = false := by
  refine ⟨?_, ?_, ?_, ?_, by decide⟩
  · norm_num [meshMin, vmin, triMin, f32MAX, triC, triD]
  · norm_num [meshMax, vmax, triMax, f32MIN, triC, triD]
  · have hceil : ⌈((6:ℚ) - (-1)) / (cfg8.layer_height_um / 1000)⌉ = 7 := by
      rw [Int.ceil_eq_iff]
      norm_num [cfg8]
    rw [numLayers, hceil]
    rfl
  · norm_num [emittedLayers, zOfLayer, cfg8, List.range_succ]

theorem c8_witness :
    progressFires 5 (emittedLayers cfgZ 0 (cfgZ.layer_height_um / 1000) 5).length
      = true := by
  refine (c8_progress_events cfgZ 0 (cfgZ.layer_height_um / 1000) 5).2 ?_ ?_
  · norm_num [emittedLayers, cfgZ]
  · norm_num

/-! ### Raster dimensions under single precision (claim C9)

The raster dimensions (src/lib.rs lines 92, 139–143) are computed in `f32`:
`pixel_size_mm = pixel_size_um / 1000`, `width_mm = max.x − min.x`,
`width_px = (width_mm / pixel_size_mm).ceil() as u32`, each operation
rounded to nearest-even binary32.  `roundF32` models that rounding for
values in the normal range (all values in this development are far from
overflow and underflow, so exponent clamping is not modelled); `ceil` on an
`f32` is exact and the float-to-`u32` cast clamps negatives to zero. -/

/-- Round a rational to an integer, ties to even. -/
def roundHalfEven (q : ℚ) : ℤ :=
  if q - ⌊q⌋ < 1/2 then ⌊q⌋
  else if 1/2 < q - ⌊q⌋ then ⌊q⌋ + 1
  else if ⌊q⌋ % 2 = 0 then ⌊q⌋ else ⌊q⌋ + 1

/-- IEEE-754 binary32 rounding (round to nearest, ties to even) of a
rational in the normal range: the result is the nearest multiple of
`2 ^ (e − 23)` where `e = ⌊log₂ |x|⌋`. -/
def roundF32 (x : ℚ) : ℚ :=
  if x = 0 then 0
  else (roundHalfEven (x / 2 ^ (Int.log 2 |x| - 23)) : ℚ)
    * 2 ^ (Int.log 2 |x| - 23)

/-- `pixel_size_mm = config.pixel_size_um / 1000.0` in `f32`
(src/lib.rs line 92). -/
def pixelSizeMm32 (p_um : ℚ) : ℚ := roundF32 (p_um / 1000)

/-- `width_px = ((max.x − min.x) / pixel_size_mm).ceil() as u32` computed in
`f32` (src/lib.rs lines 139–142). -/
def widthPx32 (minx maxx p_um : ℚ) : ℕ :=
  (⌈roundF32 (roundF32 (maxx - minx) / pixelSizeMm32 p_um)⌉).toNat

/-- Shared concrete data: a triangle whose x-extent is
`[−1/4, 8388608]` millimeters (all three vertices exactly representable in
binary32). -/
def triE : Triangle :=
  { v0 := ⟨-(1/4), 0, 0⟩, v1 := ⟨8388608, 0, 0⟩, v2 := ⟨0, 1, 1⟩ }

theorem roundF32_one : roundF32 1 = 1 := by
  rw [roundF32, if_neg one_ne_zero]
  rw [show Int.log 2 |(1:ℚ)| = 0 by rw [abs_one]; exact Int.log_one_right 2]
  rw [show (2:ℚ) ^ ((0:ℤ) - 23) = (8388608:ℚ)⁻¹ by norm_num]
  rw [show (1:ℚ) / (8388608:ℚ)⁻¹ = 8388608 by norm_num]
  rw [show roundHalfEven 8388608 = 8388608 by
    rw [roundHalfEven, show ⌊(8388608:ℚ)⌋ = 8388608 by norm_num]
    norm_num]
  norm_num

theorem log_2_8388608 : Int.log 2 ((8388608:ℚ)) = 23 := by
  rw [Int.log_of_one_le_right 2 (by norm_num)]
  rw [show ⌊(8388608:ℚ)⌋₊ = 8388608 by
    rw [← Int.floor_toNat, show ⌊(8388608:ℚ)⌋ = 8388608 by norm_num]
    rfl]
  exact_mod_cast @Nat.log_eq_of_pow_le_of_lt_pow 2 23 8388608 (by norm_num)
    (by norm_num)

theorem roundF32_8388608 : roundF32 8388608 = 8388608 := by
  rw [roundF32, if_neg (by norm_num)]
  rw [show |(8388608:ℚ)| = 8388608 by rw [abs_of_pos]; norm_num]
  rw [log_2_8388608]
  rw [show (2:ℚ) ^ ((23:ℤ) - 23) = 1 by norm_num]
  rw [show (8388608:ℚ) / 1 = 8388608 by norm_num]
  rw [show roundHalfEven 8388608 = 8388608 by
    rw [roundHalfEven, show ⌊(8388608:ℚ)⌋ = 8388608 by norm_num]
    norm_num]
  norm_num

/-- The `f32` subtraction `8388608 − (−1/4)` rounds DOWN to `8388608`: the
true difference `8388608.25` is below the midpoint of the 1-ulp gap. -/
theorem roundF32_sub_case : roundF32 (8388608 - (-(1/4))) = 8388608 := by
  rw [show (8388608:ℚ) - (-(1/4)) = 33554433/4 by norm_num]
  rw [roundF32, if_neg (by norm_num)]
  rw [show |(33554433:ℚ)/4| = 33554433/4 by rw [abs_of_pos]; norm_num]
  rw [show Int.log 2 ((33554433:ℚ)/4) = 23 by
    rw [Int.log_of_one_le_right 2 (by norm_num)]
    rw [show ⌊(33554433:ℚ)/4⌋₊ = 8388608 by
      rw [← Int.floor_toNat, show ⌊(33554433:ℚ)/4⌋ = 8388608 by norm_num]
      rfl]
    exact_mod_cast @Nat.log_eq_of_pow_le_of_lt_pow 2 23 8388608 (by norm_num)
      (by norm_num)]
  rw [show (2:ℚ) ^ ((23:ℤ) - 23) = 1 by norm_num]
  rw [show (33554433:ℚ)/4 / 1 = 33554433/4 by norm_num]
  rw [show roundHalfEven ((33554433:ℚ)/4) = 8388608 by
    rw [roundHalfEven, show ⌊(33554433:ℚ)/4⌋ = 8388608 by norm_num]
    norm_num]
  norm_num

theorem c9_counterexample :
    (0:ℚ) < 1000
    ∧ (meshMin [triE]).x = -(1/4)
    ∧ (meshMax [triE]).x = 8388608
    ∧ (widthPx32 (-(1/4)) 8388608 1000 : ℚ) * pixelSizeMm32 1000
        < 8388608 - (-(1/4)) := by
  refine ⟨by norm_num, ?_, ?_, ?_⟩
  · norm_num [meshMin, vmin, triMin, f32MAX, triE]
  · norm_num [meshMax, vmax, triMax, f32MIN, triE]
  · have hpsize : pixelSizeMm32 1000 = 1 := by
      rw [pixelSizeMm32, show (1000:ℚ)/1000 = 1 by norm_num, roundF32_one]
    have hwidth : widthPx32 (-(1/4)) 8388608 1000 = 8388608 := by
      rw [widthPx32, hpsize, roundF32_sub_case,
        show (8388608:ℚ) / 1 = 8388608 by norm_num, roundF32_8388608]
      rw [show ⌈(8388608:ℚ)⌉ = 8388608 by rw [Int.ceil_eq_iff]; norm_num]
      rfl
    rw [hpsize, hwidth]
    norm_num

/-- The exact-arithmetic raster width
`⌈(max.x − min.x) / (pixel_size_um / 1000)⌉` (the formula of src/lib.rs
lines 92 and 139–142 with real-number arithmetic). -/
def widthPxExact (minx maxx p_um : ℚ) : ℕ :=
  (⌈(maxx - minx) / (p_um / 1000)⌉).toNat

/-- The exact-arithmetic raster height. -/
def heightPxExact (miny maxy p_um : ℚ) : ℕ :=
  (⌈(maxy - miny) / (p_um / 1000)⌉).toNat

theorem ceil_div_mul_ge (w p : ℚ) (hp : 0 < p) (hw : 0 ≤ w) :
    w ≤ ((⌈w / p⌉).toNat : ℚ) * p := by
  have h1 : (0:ℤ) ≤ ⌈w / p⌉ := Int.ceil_nonneg (by positivity)
  have h2 : ((⌈w / p⌉).toNat : ℚ) = ((⌈w / p⌉ : ℤ) : ℚ) := by
    exact_mod_cast congrArg (fun z : ℤ => (z : ℚ)) (Int.toNat_of_nonneg h1)
  rw [h2]
  have h3 : w / p ≤ (⌈w / p⌉ : ℚ) := Int.le_ceil _
  calc w = w / p * p := by field_simp
  _ ≤ (⌈w / p⌉ : ℚ) * p := mul_le_mul_of_nonneg_right h3 hp.le

/-- C9 (amended): in exact arithmetic the computed raster dimensions cover
the mesh footprint: `width_px · pixel_size_mm ≥ max.x − min.x` and
`height_px · pixel_size_mm ≥ max.y − min.y`.  (Under the program's
single-precision arithmetic the inequality can fail by up to an ulp, because
`max.x − min.x` may round down — see the counterexample.) -/
theorem c9_footprint_exact (minx maxx miny maxy p_um : ℚ) (hp : 0 < p_um)
    (hx : minx ≤ maxx) (hy : miny ≤ maxy) :
    maxx - minx ≤ (widthPxExact minx maxx p_um : ℚ) * (p_um / 1000)
      ∧ maxy - miny ≤ (heightPxExact miny maxy p_um : ℚ) * (p_um / 1000) := by
  constructor
  · exact ceil_div_mul_ge (maxx - minx) (p_um / 1000) (by positivity)
      (by linarith)
  · exact ceil_div_mul_ge (maxy - miny) (p_um / 1000) (by positivity)
      (by linarith)

theorem c9_witness :
    (5:ℚ) - 0 ≤ (widthPxExact 0 5 2000 : ℚ) * (2000 / 1000)
      ∧ (3:ℚ) - 0 ≤ (heightPxExact 0 3 2000 : ℚ) * (2000 / 1000) :=
  c9_footprint_exact 0 5 0 3 2000 (by norm_num) (by norm_num) (by norm_num)

/-! ### Generic evaluation lemmas for the binary32 rounding model -/

theorem zpow_split (m n : ℤ) : (2:ℚ)^m = 2^n * 2^(m - n) := by
  rw [← zpow_add₀ (by norm_num : (2:ℚ) ≠ 0)]
  congr 1
  ring

theorem log_eval (x : ℚ) (e : ℤ) (h1 : (2:ℚ)^e ≤ x) (h2 : x < 2^(e+1)) :
    Int.log 2 x = e := by
  have hx : 0 < x := lt_of_lt_of_le (zpow_pos (by norm_num) e) h1
  have hle : e ≤ Int.log 2 x := (Int.zpow_le_iff_le_log (by norm_num) hx).mp h1
  have hlt : Int.log 2 x < e + 1 := (Int.lt_zpow_iff_log_lt (by norm_num) hx).mp h2
  omega

/-- A rational that is an integer multiple of the binary32 grid unit at its
own magnitude is a fixed point of `roundF32`. -/
theorem roundF32_fix (x : ℚ) (e n : ℤ) (hx : x ≠ 0) (hlog : Int.log 2 |x| = e)
    (hn : x = (n:ℚ) * 2 ^ (e - 23)) : roundF32 x = x := by
  rw [roundF32, if_neg hx, hlog]
  have hpow : ((2:ℚ) ^ (e - 23)) ≠ 0 := zpow_ne_zero _ (by norm_num)
  have hdiv : x / 2 ^ (e - 23) = (n:ℚ) := by
    rw [hn]
    exact mul_div_cancel_right₀ _ hpow
  rw [hdiv]
  have hrh : roundHalfEven ((n:ℚ)) = n := by
    rw [roundHalfEven, Int.floor_intCast]
    simp
  rw [hrh, ← hn]

theorem log_abs_zpow (k : ℤ) : Int.log 2 |(2:ℚ)^k| = k := by
  rw [abs_of_pos (zpow_pos (by norm_num) k)]
  have h := @Int.log_zpow ℚ _ _ 2 (by norm_num) k
  norm_num at h
  exact h

theorem roundF32_zpow (k : ℤ) : roundF32 ((2:ℚ)^k) = 2^k := by
  apply roundF32_fix _ k (2^23) (by positivity) (log_abs_zpow k)
  push_cast
  rw [show (8388608:ℚ) = (2:ℚ)^(23:ℤ) by norm_num,
    ← zpow_add₀ (by norm_num : (2:ℚ) ≠ 0)]
  congr 1
  ring

theorem roundF32_neg_zpow (k : ℤ) : roundF32 (-(2:ℚ)^k) = -(2:ℚ)^k := by
  apply roundF32_fix _ k (-(2^23))
    (neg_ne_zero.mpr (by positivity)) (by rw [abs_neg]; exact log_abs_zpow k)
  push_cast
  rw [show (-8388608:ℚ) = -((2:ℚ)^(23:ℤ)) by norm_num, neg_mul,
    ← zpow_add₀ (by norm_num : (2:ℚ) ≠ 0), neg_inj]
  congr 1
  ring

theorem two_zpow_sub24_pos (a : ℤ) : (0:ℚ) < 2^a - 2^(a-24) := by
  have hsplit : (2:ℚ)^a = 2^(a-24) * 2^(a - (a-24)) := zpow_split a (a-24)
  rw [show a - (a-24) = (24:ℤ) by ring] at hsplit
  have h24 : (1:ℚ) < 2^(24:ℤ) := by norm_num
  nlinarith [zpow_pos (by norm_num : (0:ℚ) < 2) (a-24)]

theorem log_abs_two_zpow_sub24 (a : ℤ) :
    Int.log 2 |(2:ℚ)^a - 2^(a-24)| = a - 1 := by
  have hpos := two_zpow_sub24_pos a
  rw [abs_of_pos hpos]
  apply log_eval _ (a-1)
  · have hsplit : (2:ℚ)^(a-1) = 2^(a-24) * 2^((a-1) - (a-24)) := zpow_split _ _
    rw [show (a-1) - (a-24) = (23:ℤ) by ring] at hsplit
    have hsplit2 : (2:ℚ)^a = 2^(a-1) * 2^(a - (a-1)) := zpow_split _ _
    rw [show a - (a-1) = (1:ℤ) by ring] at hsplit2
    have hp1 : (0:ℚ) < 2^(a-24) := zpow_pos (by norm_num) _
    have hp23 : ((2:ℚ)^(23:ℤ)) = 8388608 := by norm_num
    have hz1 : ((2:ℚ)^(1:ℤ)) = 2 := by norm_num
    nlinarith
  · rw [show a - 1 + 1 = a by ring]
    have hp : (0:ℚ) < 2^(a-24) := zpow_pos (by norm_num) _
    linarith

theorem roundF32_two_zpow_sub24 (a : ℤ) :
    roundF32 ((2:ℚ)^a - 2^(a-24)) = (2:ℚ)^a - 2^(a-24) := by
  apply roundF32_fix _ (a-1) (2^24 - 1) (ne_of_gt (two_zpow_sub24_pos a))
    (log_abs_two_zpow_sub24 a)
  push_cast
  rw [show (16777215:ℚ) = (2:ℚ)^(24:ℤ) - 1 by norm_num, sub_mul,
    ← zpow_add₀ (by norm_num : (2:ℚ) ≠ 0), one_mul,
    show (24:ℤ) + (a - 1 - 23) = a by ring, show a - 1 - 23 = a - 24 by ring]

theorem roundF32_neg_two_zpow_sub24 (a : ℤ) :
    roundF32 (-((2:ℚ)^a - 2^(a-24))) = -((2:ℚ)^a - 2^(a-24)) := by
  apply roundF32_fix _ (a-1) (-(2^24 - 1))
    (neg_ne_zero.mpr (ne_of_gt (two_zpow_sub24_pos a)))
    (by rw [abs_neg]; exact log_abs_two_zpow_sub24 a)
  push_cast
  rw [show (-16777215:ℚ) = -((2:ℚ)^(24:ℤ) - 1) by norm_num, neg_mul, neg_inj,
    sub_mul, ← zpow_add₀ (by norm_num : (2:ℚ) ≠ 0), one_mul,
    show (24:ℤ) + (a - 1 - 23) = a by ring, show a - 1 - 23 = a - 24 by ring]

theorem roundF32_pow (k : ℕ) : roundF32 ((2:ℚ)^k) = 2^k := by
  have h := roundF32_zpow (k:ℤ)
  rwa [zpow_natCast] at h

/-- `16777217 = 2^24 + 1` is not representable in binary32: the nearest-even
rounding ties down to `2^24` (the conversion `16777217u32 as f32`). -/
theorem roundF32_16777217 : roundF32 16777217 = 16777216 := by
  rw [roundF32, if_neg (by norm_num)]
  rw [show |(16777217:ℚ)| = 16777217 from abs_of_pos (by norm_num)]
  rw [show Int.log 2 (16777217:ℚ) = 24 from log_eval _ 24 (by norm_num) (by norm_num)]
  rw [show ((24:ℤ) - 23) = (1:ℤ) by norm_num]
  rw [show ((16777217:ℚ) / (2:ℚ)^(1:ℤ)) = 16777217/2 by norm_num]
  rw [show roundHalfEven ((16777217:ℚ)/2) = 8388608 by
    rw [roundHalfEven, show ⌊(16777217:ℚ)/2⌋ = 8388608 by norm_num]
    norm_num]
  norm_num

/-- C7: the code violates the distinct-label guarantee at concrete legal
inputs.  (1) With configuration `cfg7` (`layer_height_um = 0.4 µm`, positive,
`zero_slice_position` enabled) and a mesh spanning 3 layers, the emitted
layers 0 and 1 both receive stamp 0, so both tasks write `0.png`.
(2) Sub-micrometer heights are not required: `i as f32` maps the layer
indices 16777216 and 16777217 to the same binary32 value, so with
`layer_height_um = 1` the zero-slice stamps `round((i as f32) * 1.0)` of
those two layers coincide as well. -/
theorem c7_label_collision :
    (0 < cfg7.layer_height_um
      ∧ (0 : ℕ) ≠ 1
      ∧ 1 < numLayers 0 (1/1000) (cfg7.layer_height_um / 1000)
      ∧ cfg7.delete_below_zero = false
      ∧ zStamp cfg7 0 0 = zStamp cfg7 0 1)
    ∧ (16777216 : ℕ) ≠ 16777217
    ∧ roundF32 16777217 = 16777216
    ∧ rustRound (roundF32 (roundF32 (16777217:ℚ) * 1))
        = rustRound (roundF32 (roundF32 (16777216:ℚ) * 1)) := by
  have h16 : roundF32 (16777216:ℚ) = 16777216 := by
    have h := roundF32_pow 24
    norm_num at h
    exact h
  refine ⟨⟨by norm_num [cfg7], by norm_num, ?_, rfl, ?_⟩, by norm_num,
    roundF32_16777217, ?_⟩
  · have hceil : ⌈((1:ℚ)/1000 - 0) / (cfg7.layer_height_um / 1000)⌉ = 3 := by
      rw [Int.ceil_eq_iff]
      norm_num [cfg7]
    rw [numLayers, hceil]
    norm_num
  · have htrue : cfg7.zero_slice_position = true := rfl
    have h0 : zStamp cfg7 0 0 = 0 := by
      rw [zStamp, if_pos htrue]
      norm_num [rustRound]
    have h1 : zStamp cfg7 0 1 = 0 := by
      rw [zStamp, if_pos htrue]
      rw [show ((1:ℕ) : ℚ) * cfg7.layer_height_um = 2/5 by norm_num [cfg7]]
      rw [rustRound, if_pos (by norm_num)]
      norm_num
    rw [h0, h1]
  · rw [roundF32_16777217, h16]

/-! ### Full IEEE model with infinities (claim C5)

`f32` values modelled with NaN and the two infinities; each arithmetic
operation on finite operands computes exactly and then rounds with
`roundF32E`, which produces an infinity when the magnitude reaches the
overflow threshold `2^128 − 2^103` (the midpoint above the largest finite
binary32 value `2^128 − 2^104`, which round-to-nearest-even sends to
infinity).  Comparisons follow IEEE: any comparison involving NaN is false.
Signed zeros are not distinguished: no operation used below depends on the
sign of a zero (`x + (−0) = x`, comparisons treat them equal, and `0 · ∞`
is NaN for either zero). -/

/-- An `f32` value with special values: NaN, `+∞`, `−∞`, or a finite
rational. -/
inductive F32 where
  | nan : F32
  | posInf : F32
  | negInf : F32
  | fin : ℚ → F32
deriving DecidableEq

/-- Magnitudes at or above this round to infinity in binary32. -/
def overflowThr : ℚ := 2^128 - 2^103

/-- Binary32 rounding of an exact rational result: overflow to `±∞`,
otherwise round to nearest-even with `roundF32`. -/
def roundF32E (x : ℚ) : F32 :=
  if x ≥ overflowThr then F32.posInf
  else if x ≤ -overflowThr then F32.negInf
  else F32.fin (roundF32 x)

/-- IEEE negation. -/
def F32.neg : F32 → F32
  | nan => nan
  | posInf => negInf
  | negInf => posInf
  | fin a => fin (-a)

/-- IEEE addition. -/
def F32.add : F32 → F32 → F32
  | nan, _ => nan
  | _, nan => nan
  | posInf, negInf => nan
  | negInf, posInf => nan
  | posInf, _ => posInf
  | _, posInf => posInf
  | negInf, _ => negInf
  | _, negInf => negInf
  | fin a, fin b => roundF32E (a + b)

/-- IEEE subtraction (equal to addition of the negation). -/
def F32.sub (a b : F32) : F32 := a.add b.neg

/-- IEEE multiplication (`0 · ∞` is NaN). -/
def F32.mul : F32 → F32 → F32
  | nan, _ => nan
  | _, nan => nan
  | posInf, posInf => posInf
  | posInf, negInf => negInf
  | negInf, posInf => negInf
  | negInf, negInf => posInf
  | posInf, fin b => if b = 0 then nan else if 0 < b then posInf else negInf
  | fin a, posInf => if a = 0 then nan else if 0 < a then posInf else negInf
  | negInf, fin b => if b = 0 then nan else if 0 < b then negInf else posInf
  | fin a, negInf => if a = 0 then nan else if 0 < a then negInf else posInf
  | fin a, fin b => roundF32E (a * b)

/-- IEEE division (zeros treated as `+0`). -/
def F32.div : F32 → F32 → F32
  | nan, _ => nan
  | _, nan => nan
  | posInf, posInf => nan
  | posInf, negInf => nan
  | negInf, posInf => nan
  | negInf, negInf => nan
  | posInf, fin b => if 0 ≤ b then posInf else negInf
  | negInf, fin b => if 0 ≤ b then negInf else posInf
  | fin _, posInf => fin 0
  | fin _, negInf => fin 0
  | fin a, fin b =>
      if b = 0 then (if a = 0 then nan else if 0 < a then posInf else negInf)
      else roundF32E (a / b)

/-- IEEE strict less-than: false whenever NaN is involved. -/
def F32.lt : F32 → F32 → Bool
  | nan, _ => false
  | _, nan => false
  | posInf, _ => false
  | negInf, negInf => false
  | negInf, _ => true
  | fin _, posInf => true
  | fin _, negInf => false
  | fin a, fin b => decide (a < b)

/-- IEEE strict greater-than. -/
def F32.gt (a b : F32) : Bool := F32.lt b a

/-- Model of `f32::partial_cmp` on the extended values: `none` exactly when
NaN is involved. -/
def F32.cmp : F32 → F32 → Option Ordering
  | nan, _ => none
  | _, nan => none
  | posInf, posInf => some Ordering.eq
  | posInf, _ => some Ordering.gt
  | negInf, negInf => some Ordering.eq
  | negInf, _ => some Ordering.lt
  | fin _, posInf => some Ordering.lt
  | fin _, negInf => some Ordering.gt
  | fin a, fin b => some (compare a b)

/-- A vector of extended `f32` components. -/
structure Vec3E where
  x : F32
  y : F32
  z : F32
deriving DecidableEq

/-- Componentwise subtraction in the extended model. -/
def vsubE (a b : Vec3E) : Vec3E := ⟨a.x.sub b.x, a.y.sub b.y, a.z.sub b.z⟩

/-- Dot product in the extended model (glam evaluates
`x·x' + y·y' + z·z'` left-associated, each operation rounded). -/
def dotE (a b : Vec3E) : F32 :=
  ((a.x.mul b.x).add (a.y.mul b.y)).add (a.z.mul b.z)

/-- Cross product in the extended model. -/
def crossE (a b : Vec3E) : Vec3E :=
  ⟨(a.y.mul b.z).sub (a.z.mul b.y),
   (a.z.mul b.x).sub (a.x.mul b.z),
   (a.x.mul b.y).sub (a.y.mul b.x)⟩

/-- A triangle of extended `f32` vertices. -/
structure TriangleE where
  v0 : Vec3E
  v1 : Vec3E
  v2 : Vec3E
deriving DecidableEq

/-- A ray in the extended model. -/
structure RayE where
  origin : Vec3E
  direction : Vec3E
deriving DecidableEq

/-- `Triangle::intersect` (src/lib.rs lines 51–84) in the extended IEEE
model, clause by clause. -/
def TriangleE.intersect (t : TriangleE) (ray : RayE) : Option F32 :=
  let epsilon : F32 := F32.fin (1/1000000)
  let edge1 := vsubE t.v1 t.v0
  let edge2 := vsubE t.v2 t.v0
  let h := crossE ray.direction edge2
  let a := dotE edge1 h
  if F32.gt a epsilon.neg && F32.lt a epsilon then none
  else
    let f := F32.div (F32.fin 1) a
    let s := vsubE ray.origin t.v0
    let u := F32.mul f (dotE s h)
    if F32.lt u (F32.fin 0) || F32.gt u (F32.fin 1) then none
    else
      let q := crossE s edge1
      let v := F32.mul f (dotE ray.direction q)
      if F32.lt v (F32.fin 0) || F32.gt (F32.add u v) (F32.fin 1) then none
      else
        let t' := F32.mul f (dotE edge2 q)
        if F32.gt t' epsilon then some t' else none

/-- The z-crossing collection (src/lib.rs lines 167–174) in the extended
model: `z = origin.z + dist * direction.z` for each accepted hit. -/
def columnHitsE (tris : List TriangleE) (ray : RayE) : List F32 :=
  tris.filterMap fun tr =>
    (tr.intersect ray).map fun dist => ray.origin.z.add (dist.mul ray.direction.z)

/-- The ascending sort of the crossings by the `partial_cmp` comparator in
the extended model. -/
def sortedHitsE (tris : List TriangleE) (ray : RayE) : List F32 :=
  List.insertionSort (fun a b => F32.cmp a b ≠ some Ordering.gt)
    (columnHitsE tris ray)

/-- The greedy pairing loop (src/lib.rs lines 179–184) in the extended
model. -/
def pairSpansE : List F32 → List (F32 × F32)
  | a :: b :: rest => (a, b) :: pairSpansE rest
  | _ => []

/-- The span list of a column in the extended model. -/
def columnSpansE (tris : List TriangleE) (ray : RayE) : List (F32 × F32) :=
  pairSpansE (sortedHitsE tris ray)

theorem roundF32E_exact (x : ℚ) (hfix : roundF32 x = x) (h1 : x < overflowThr)
    (h2 : -overflowThr < x) : roundF32E x = F32.fin x := by
  rw [roundF32E, if_neg (not_le.mpr h1), if_neg (not_le.mpr h2), hfix]

theorem roundF32E_posInf_ge (x : ℚ) (h : overflowThr ≤ x) :
    roundF32E x = F32.posInf := by
  rw [roundF32E, if_pos h]

theorem rE_zero : roundF32E 0 = F32.fin 0 := by
  refine roundF32E_exact _ ?_ (by norm_num [overflowThr]) (by norm_num [overflowThr])
  rw [roundF32]
  norm_num

theorem rE_one : roundF32E 1 = F32.fin 1 := by
  have h := roundF32_zpow 0
  norm_num at h
  exact roundF32E_exact _ h (by norm_num [overflowThr]) (by norm_num [overflowThr])

theorem rE_neg_one : roundF32E (-1) = F32.fin (-1) := by
  have h := roundF32_neg_zpow 0
  norm_num at h
  exact roundF32E_exact _ h (by norm_num [overflowThr]) (by norm_num [overflowThr])

theorem rE_two : roundF32E 2 = F32.fin 2 := by
  have h := roundF32_zpow 1
  norm_num at h
  exact roundF32E_exact _ h (by norm_num [overflowThr]) (by norm_num [overflowThr])

theorem rE_neg_two : roundF32E (-2) = F32.fin (-2) := by
  have h := roundF32_neg_zpow 1
  norm_num at h
  exact roundF32E_exact _ h (by norm_num [overflowThr]) (by norm_num [overflowThr])

theorem rE_four : roundF32E 4 = F32.fin 4 := by
  have h := roundF32_zpow 2
  norm_num at h
  exact roundF32E_exact _ h (by norm_num [overflowThr]) (by norm_num [overflowThr])

theorem rE_neg_four : roundF32E (-4) = F32.fin (-4) := by
  have h := roundF32_neg_zpow 2
  norm_num at h
  exact roundF32E_exact _ h (by norm_num [overflowThr]) (by norm_num [overflowThr])

theorem rE_neg_eight : roundF32E (-8) = F32.fin (-8) := by
  have h := roundF32_neg_zpow 3
  norm_num at h
  exact roundF32E_exact _ h (by norm_num [overflowThr]) (by norm_num [overflowThr])

theorem rE_neg_sixteen : roundF32E (-16) = F32.fin (-16) := by
  have h := roundF32_neg_zpow 4
  norm_num at h
  exact roundF32E_exact _ h (by norm_num [overflowThr]) (by norm_num [overflowThr])

theorem rE_neg_thirtytwo : roundF32E (-32) = F32.fin (-32) := by
  have h := roundF32_neg_zpow 5
  norm_num at h
  exact roundF32E_exact _ h (by norm_num [overflowThr]) (by norm_num [overflowThr])

theorem rE_half : roundF32E (1/2) = F32.fin (1/2) := by
  have h := roundF32_zpow (-1)
  norm_num at h
  exact roundF32E_exact _ h (by norm_num [overflowThr]) (by norm_num [overflowThr])

theorem rE_quarter : roundF32E (1/4) = F32.fin (1/4) := by
  have h := roundF32_zpow (-2)
  norm_num at h
  exact roundF32E_exact _ h (by norm_num [overflowThr]) (by norm_num [overflowThr])

theorem rE_neg_sixteenth : roundF32E (-(1/16)) = F32.fin (-(1/16)) := by
  have h := roundF32_neg_zpow (-4)
  norm_num at h
  exact roundF32E_exact _ h (by norm_num [overflowThr]) (by norm_num [overflowThr])

theorem rE_p40 : roundF32E (1099511627776:ℚ) = F32.fin 1099511627776 := by
  have h := roundF32_zpow 40
  norm_num at h
  exact roundF32E_exact _ h (by norm_num [overflowThr]) (by norm_num [overflowThr])

theorem rE_p63 : roundF32E (9223372036854775808:ℚ) = F32.fin 9223372036854775808 := by
  have h := roundF32_zpow 63
  norm_num at h
  exact roundF32E_exact _ h (by norm_num [overflowThr]) (by norm_num [overflowThr])

theorem rE_neg_p63 : roundF32E (-9223372036854775808:ℚ)
    = F32.fin (-9223372036854775808) := by
  have h := roundF32_neg_zpow 63
  norm_num at h
  exact roundF32E_exact _ h (by norm_num [overflowThr]) (by norm_num [overflowThr])

theorem rE_p64 : roundF32E (18446744073709551616:ℚ)
    = F32.fin 18446744073709551616 := by
  have h := roundF32_zpow 64
  norm_num at h
  exact roundF32E_exact _ h (by norm_num [overflowThr]) (by norm_num [overflowThr])

theorem rE_neg_p64 : roundF32E (-18446744073709551616:ℚ)
    = F32.fin (-18446744073709551616) := by
  have h := roundF32_neg_zpow 64
  norm_num at h
  exact roundF32E_exact _ h (by norm_num [overflowThr]) (by norm_num [overflowThr])

theorem rE_p89 : roundF32E (618970019642690137449562112:ℚ)
    = F32.fin 618970019642690137449562112 := by
  have h := roundF32_zpow 89
  norm_num at h
  exact roundF32E_exact _ h (by norm_num [overflowThr]) (by norm_num [overflowThr])

theorem rE_p103 : roundF32E (10141204801825835211973625643008:ℚ)
    = F32.fin 10141204801825835211973625643008 := by
  have h := roundF32_zpow 103
  norm_num at h
  exact roundF32E_exact _ h (by norm_num [overflowThr]) (by norm_num [overflowThr])

theorem rE_p127 : roundF32E (170141183460469231731687303715884105728:ℚ)
    = F32.fin 170141183460469231731687303715884105728 := by
  have h := roundF32_zpow 127
  norm_num at h
  exact roundF32E_exact _ h (by norm_num [overflowThr]) (by norm_num [overflowThr])

theorem rE_inv103 : roundF32E (1/10141204801825835211973625643008)
    = F32.fin (1/10141204801825835211973625643008) := by
  have h := roundF32_zpow (-103)
  norm_num at h
  exact roundF32E_exact _ h (by norm_num [overflowThr]) (by norm_num [overflowThr])

theorem rE_inv63 : roundF32E (1/9223372036854775808)
    = F32.fin (1/9223372036854775808) := by
  have h := roundF32_zpow (-63)
  norm_num at h
  exact roundF32E_exact _ h (by norm_num [overflowThr]) (by norm_num [overflowThr])

theorem rE_sub64 : roundF32E (18446742974197923840:ℚ)
    = F32.fin 18446742974197923840 := by
  have h := roundF32_two_zpow_sub24 64
  norm_num at h
  exact roundF32E_exact _ h (by norm_num [overflowThr]) (by norm_num [overflowThr])

theorem rE_neg_sub64 : roundF32E (-18446742974197923840:ℚ)
    = F32.fin (-18446742974197923840) := by
  have h := roundF32_neg_two_zpow_sub24 64
  norm_num at h
  exact roundF32E_exact _ h (by norm_num [overflowThr]) (by norm_num [overflowThr])

theorem rE_neg_sub127 : roundF32E (-170141173319264429905852091742258462720:ℚ)
    = F32.fin (-170141173319264429905852091742258462720) := by
  have h := roundF32_neg_two_zpow_sub24 127
  norm_num at h
  exact roundF32E_exact _ h (by norm_num [overflowThr]) (by norm_num [overflowThr])

/-- `2^129` overflows binary32: the product `2^89 · 2^40` is `+∞`. -/
theorem rE_p129 : roundF32E (680564733841876926926749214863536422912:ℚ)
    = F32.posInf :=
  roundF32E_posInf_ge _ (by norm_num [overflowThr])

/-! ### A concrete overflow counterexample for span finiteness (claim C5)

All vertex coordinates below are exactly representable binary32 values
(powers of two and `2^64 − 2^40`, a 24-bit significand at exponent 40),
and every arithmetic step of the intersection of `triOv` by `rayOv` is
exact in binary32 — except one: the z-term of `edge2 · q` is
`2^89 · 2^40 = 2^129`, which overflows to `+∞`.  The running sum then
becomes `+∞`, so `t = f · (edge2 · q) = +∞`, which passes the acceptance
test `t > 1e-6`, and the routine returns `Some(+∞)`.  A second triangle
`triPl` (a plane at `z = 1` over the pixel) contributes an exact finite
hit, so the column's sorted hit list is `[1, +∞]` and the greedy pairing
produces the span `(1, +∞)`: a span endpoint that is not a finite
number, refuting the finiteness clause of the claim. -/

/-- The overflowing triangle: vertices `(0,0,0)`,
`(2^64 − 2^40, 2^64, 0)`, `(2^63, 2^63, 2^89)`, all exactly
representable in binary32. -/
def triOv : TriangleE :=
  { v0 := ⟨F32.fin 0, F32.fin 0, F32.fin 0⟩,
    v1 := ⟨F32.fin 18446742974197923840, F32.fin 18446744073709551616, F32.fin 0⟩,
    v2 := ⟨F32.fin 9223372036854775808, F32.fin 9223372036854775808,
           F32.fin 618970019642690137449562112⟩ }

/-- A plane triangle at `z = 1` covering the pixel: vertices `(0,0,1)`,
`(4,0,1)`, `(0,4,1)`.  Its intersection by `rayOv` is exact in binary32. -/
def triPl : TriangleE :=
  { v0 := ⟨F32.fin 0, F32.fin 0, F32.fin 1⟩, v1 := ⟨F32.fin 4, F32.fin 0, F32.fin 1⟩,
    v2 := ⟨F32.fin 0, F32.fin 4, F32.fin 1⟩ }

/-- The program's ray for pixel `(0,0)` at `pixel_size_mm = 2` on this
mesh: the mesh minimum over `triPl` and `triOv` is the origin, so
`px = 0 + 0.5·2 = 1`, `py = 1`, and the origin z is `min.z − 1 = −1`,
with direction `(0, 0, 1)` (src/lib.rs lines 157–163). -/
def rayOv : RayE := ⟨⟨F32.fin 1, F32.fin 1, F32.fin (-1)⟩, ⟨F32.fin 0, F32.fin 0, F32.fin 1⟩⟩

/-! Ground binary32 evaluation facts for the individual additions,
multiplications, the division and the guard comparisons that occur in
the trace of `TriangleE.intersect triOv rayOv`. -/

theorem ovA1 : F32.add (F32.fin 18446742974197923840) (F32.fin (-0))
    = F32.fin 18446742974197923840 := by norm_num [F32.add, rE_sub64]

theorem ovA2 : F32.add (F32.fin 18446744073709551616) (F32.fin (-0))
    = F32.fin 18446744073709551616 := by norm_num [F32.add, rE_p64]

theorem ovA3 : F32.add (F32.fin 0) (F32.fin (-0)) = F32.fin 0 := by
  norm_num [F32.add, rE_zero]

theorem ovA4 : F32.add (F32.fin 9223372036854775808) (F32.fin (-0))
    = F32.fin 9223372036854775808 := by norm_num [F32.add, rE_p63]

theorem ovA5 : F32.add (F32.fin 618970019642690137449562112) (F32.fin (-0))
    = F32.fin 618970019642690137449562112 := by norm_num [F32.add, rE_p89]

theorem ovA6 : F32.add (F32.fin 1) (F32.fin (-0)) = F32.fin 1 := by
  norm_num [F32.add, rE_one]

theorem ovA7 : F32.add (F32.fin (-1)) (F32.fin (-0)) = F32.fin (-1) := by
  norm_num [F32.add, rE_neg_one]

theorem ovA8 : F32.add (F32.fin 0) (F32.fin (-9223372036854775808))
    = F32.fin (-9223372036854775808) := by norm_num [F32.add, rE_neg_p63]

theorem ovA9 : F32.add (F32.fin (-170141173319264429905852091742258462720))
    (F32.fin 170141183460469231731687303715884105728)
    = F32.fin 10141204801825835211973625643008 := by norm_num [F32.add, rE_p103]

theorem ovA10 : F32.add (F32.fin 10141204801825835211973625643008) (F32.fin 0)
    = F32.fin 10141204801825835211973625643008 := by norm_num [F32.add, rE_p103]

theorem ovA11 : F32.add (F32.fin (-9223372036854775808)) (F32.fin 9223372036854775808)
    = F32.fin 0 := by norm_num [F32.add, rE_zero]

theorem ovA12 : F32.add (F32.fin 0) (F32.fin 18446744073709551616)
    = F32.fin 18446744073709551616 := by norm_num [F32.add, rE_p64]

theorem ovA13 : F32.add (F32.fin (-18446742974197923840)) (F32.fin (-0))
    = F32.fin (-18446742974197923840) := by norm_num [F32.add, rE_neg_sub64]

theorem ovA14 : F32.add (F32.fin 18446744073709551616) (F32.fin (-18446742974197923840))
    = F32.fin 1099511627776 := by norm_num [F32.add, rE_p40]

theorem ovA15 : F32.add (F32.fin 0) (F32.fin 1099511627776)
    = F32.fin 1099511627776 := by norm_num [F32.add, rE_p40]

theorem ovA16 : F32.add (F32.fin 0) (F32.fin (1/9223372036854775808))
    = F32.fin (1/9223372036854775808) := by norm_num [F32.add, rE_inv63]

theorem ovA17 : F32.add (F32.fin 170141183460469231731687303715884105728)
    (F32.fin (-170141173319264429905852091742258462720))
    = F32.fin 10141204801825835211973625643008 := by norm_num [F32.add, rE_p103]

theorem ovA18 : F32.add (F32.fin 10141204801825835211973625643008) F32.posInf
    = F32.posInf := rfl

theorem ovA19 : F32.add (F32.fin 0) (F32.fin 0) = F32.fin 0 := by
  norm_num [F32.add, rE_zero]

theorem ovM1 : F32.mul (F32.fin 0) (F32.fin 618970019642690137449562112) = F32.fin 0 := by
  norm_num [F32.mul, rE_zero]

theorem ovM2 : F32.mul (F32.fin 1) (F32.fin 9223372036854775808)
    = F32.fin 9223372036854775808 := by norm_num [F32.mul, rE_p63]

theorem ovM3 : F32.mul (F32.fin 0) (F32.fin 9223372036854775808) = F32.fin 0 := by
  norm_num [F32.mul, rE_zero]

theorem ovM4 : F32.mul (F32.fin 18446742974197923840) (F32.fin (-9223372036854775808))
    = F32.fin (-170141173319264429905852091742258462720) := by
  norm_num [F32.mul, rE_neg_sub127]

theorem ovM5 : F32.mul (F32.fin 18446744073709551616) (F32.fin 9223372036854775808)
    = F32.fin 170141183460469231731687303715884105728 := by norm_num [F32.mul, rE_p127]

theorem ovM6 : F32.mul (F32.fin 0) (F32.fin 0) = F32.fin 0 := by
  norm_num [F32.mul, rE_zero]

theorem ovM7 : F32.mul (F32.fin 1) (F32.fin (-9223372036854775808))
    = F32.fin (-9223372036854775808) := by norm_num [F32.mul, rE_neg_p63]

theorem ovM8 : F32.mul (F32.fin (-1)) (F32.fin 0) = F32.fin 0 := by
  norm_num [F32.mul, rE_zero]

theorem ovM9 : F32.mul (F32.fin (1/10141204801825835211973625643008)) (F32.fin 0)
    = F32.fin 0 := by norm_num [F32.mul, rE_zero]

theorem ovM10 : F32.mul (F32.fin 1) (F32.fin 0) = F32.fin 0 := by
  norm_num [F32.mul, rE_zero]

theorem ovM11 : F32.mul (F32.fin (-1)) (F32.fin 18446744073709551616)
    = F32.fin (-18446744073709551616) := by norm_num [F32.mul, rE_neg_p64]

theorem ovM12 : F32.mul (F32.fin (-1)) (F32.fin 18446742974197923840)
    = F32.fin (-18446742974197923840) := by norm_num [F32.mul, rE_neg_sub64]

theorem ovM13 : F32.mul (F32.fin 1) (F32.fin 18446744073709551616)
    = F32.fin 18446744073709551616 := by norm_num [F32.mul, rE_p64]

theorem ovM14 : F32.mul (F32.fin 1) (F32.fin 18446742974197923840)
    = F32.fin 18446742974197923840 := by norm_num [F32.mul, rE_sub64]

theorem ovM15 : F32.mul (F32.fin 0) (F32.fin 18446744073709551616) = F32.fin 0 := by
  norm_num [F32.mul, rE_zero]

theorem ovM16 : F32.mul (F32.fin 0) (F32.fin (-18446742974197923840)) = F32.fin 0 := by
  norm_num [F32.mul, rE_zero]

theorem ovM17 : F32.mul (F32.fin 1) (F32.fin 1099511627776)
    = F32.fin 1099511627776 := by norm_num [F32.mul, rE_p40]

theorem ovM18 : F32.mul (F32.fin (1/10141204801825835211973625643008))
    (F32.fin 1099511627776) = F32.fin (1/9223372036854775808) := by
  norm_num [F32.mul, rE_inv63]

theorem ovM19 : F32.mul (F32.fin 9223372036854775808) (F32.fin 18446744073709551616)
    = F32.fin 170141183460469231731687303715884105728 := by norm_num [F32.mul, rE_p127]

theorem ovM20 : F32.mul (F32.fin 9223372036854775808) (F32.fin (-18446742974197923840))
    = F32.fin (-170141173319264429905852091742258462720) := by
  norm_num [F32.mul, rE_neg_sub127]

theorem ovM21 : F32.mul (F32.fin 618970019642690137449562112) (F32.fin 1099511627776)
    = F32.posInf := by norm_num [F32.mul, rE_p129]

theorem ovM22 : F32.mul (F32.fin (1/10141204801825835211973625643008)) F32.posInf
    = F32.posInf := by norm_num [F32.mul]

theorem ovD1 : F32.div (F32.fin 1) (F32.fin 10141204801825835211973625643008)
    = F32.fin (1/10141204801825835211973625643008) := by
  norm_num [F32.div, rE_inv103]

theorem ovG1 : F32.lt (F32.fin 10141204801825835211973625643008)
    (F32.fin (1/1000000)) = false := by
  simp only [F32.lt, decide_eq_false_iff_not]; norm_num

theorem ovG2 : F32.lt (F32.fin 0) (F32.fin 0) = false := by
  simp [F32.lt]

theorem ovG3 : F32.gt (F32.fin 0) (F32.fin 1) = false := by
  simp [F32.gt, F32.lt]

theorem ovG4 : F32.lt (F32.fin (1/9223372036854775808)) (F32.fin 0) = false := by
  simp only [F32.lt, decide_eq_false_iff_not]; norm_num

theorem ovG5 : F32.gt (F32.fin (1/9223372036854775808)) (F32.fin 1) = false := by
  simp only [F32.gt, F32.lt, decide_eq_false_iff_not]; norm_num

theorem ovG6 : F32.gt F32.posInf (F32.fin (1/1000000)) = true := rfl

/-- Evaluation rule for `TriangleE.intersect` on a run that reaches the
final acceptance test: given the values of every intermediate quantity
and the value of every guard, the routine returns the accepted
parameter. -/
theorem intersect_eval (t : TriangleE) (ray : RayE)
    (edge1 edge2 h s q : Vec3E) (a f u v t' : F32)
    (he1 : vsubE t.v1 t.v0 = edge1)
    (he2 : vsubE t.v2 t.v0 = edge2)
    (hh : crossE ray.direction edge2 = h)
    (ha : dotE edge1 h = a)
    (hg1 : (F32.gt a (F32.neg (F32.fin (1/1000000))) && F32.lt a (F32.fin (1/1000000))) = false)
    (hf : F32.div (F32.fin 1) a = f)
    (hs : vsubE ray.origin t.v0 = s)
    (hu : F32.mul f (dotE s h) = u)
    (hg2 : (F32.lt u (F32.fin 0) || F32.gt u (F32.fin 1)) = false)
    (hq : crossE s edge1 = q)
    (hv : F32.mul f (dotE ray.direction q) = v)
    (hg3 : (F32.lt v (F32.fin 0) || F32.gt (F32.add u v) (F32.fin 1)) = false)
    (ht : F32.mul f (dotE edge2 q) = t')
    (hg4 : F32.gt t' (F32.fin (1/1000000)) = true) :
    t.intersect ray = some t' := by
  simp only [TriangleE.intersect]
  rw [he1, he2, hh, ha, hg1, if_neg Bool.false_ne_true, hf, hs, hu, hg2,
      if_neg Bool.false_ne_true, hq, hv, hg3, if_neg Bool.false_ne_true, ht, hg4,
      if_pos rfl]

theorem ovE1 : vsubE triOv.v1 triOv.v0
    = ⟨F32.fin 18446742974197923840, F32.fin 18446744073709551616, F32.fin 0⟩ := by
  simp only [triOv, vsubE, F32.sub, F32.neg, ovA1, ovA2, ovA3]

theorem ovE2 : vsubE triOv.v2 triOv.v0
    = ⟨F32.fin 9223372036854775808, F32.fin 9223372036854775808,
       F32.fin 618970019642690137449562112⟩ := by
  simp only [triOv, vsubE, F32.sub, F32.neg, ovA4, ovA5]

theorem ovH : crossE rayOv.direction
    ⟨F32.fin 9223372036854775808, F32.fin 9223372036854775808,
     F32.fin 618970019642690137449562112⟩
    = ⟨F32.fin (-9223372036854775808), F32.fin 9223372036854775808, F32.fin 0⟩ := by
  simp only [rayOv, crossE, F32.sub, F32.neg, ovM1, ovM2, ovM3, ovA8, ovA4, ovA3]

theorem ovDotA : dotE
    ⟨F32.fin 18446742974197923840, F32.fin 18446744073709551616, F32.fin 0⟩
    ⟨F32.fin (-9223372036854775808), F32.fin 9223372036854775808, F32.fin 0⟩
    = F32.fin 10141204801825835211973625643008 := by
  simp only [dotE, ovM4, ovM5, ovM6, ovA9, ovA10]

theorem ovGa : (F32.gt (F32.fin 10141204801825835211973625643008)
      (F32.neg (F32.fin (1/1000000)))
    && F32.lt (F32.fin 10141204801825835211973625643008) (F32.fin (1/1000000)))
    = false := by
  rw [ovG1, Bool.and_false]

theorem ovS : vsubE rayOv.origin triOv.v0
    = ⟨F32.fin 1, F32.fin 1, F32.fin (-1)⟩ := by
  simp only [rayOv, triOv, vsubE, F32.sub, F32.neg, ovA6, ovA7]

theorem ovU : F32.mul (F32.fin (1/10141204801825835211973625643008))
    (dotE ⟨F32.fin 1, F32.fin 1, F32.fin (-1)⟩
      ⟨F32.fin (-9223372036854775808), F32.fin 9223372036854775808, F32.fin 0⟩)
    = F32.fin 0 := by
  simp only [dotE, ovM7, ovM2, ovM8, ovA11, ovA19, ovM9]

theorem ovGu : (F32.lt (F32.fin 0) (F32.fin 0) || F32.gt (F32.fin 0) (F32.fin 1))
    = false := by
  rw [ovG2, ovG3, Bool.false_or]

theorem ovQ : crossE ⟨F32.fin 1, F32.fin 1, F32.fin (-1)⟩
    ⟨F32.fin 18446742974197923840, F32.fin 18446744073709551616, F32.fin 0⟩
    = ⟨F32.fin 18446744073709551616, F32.fin (-18446742974197923840),
       F32.fin 1099511627776⟩ := by
  simp only [crossE, F32.sub, F32.neg, neg_neg, ovM10, ovM11, ovM12, ovM13, ovM14,
    ovA12, ovA13, ovA14]

theorem ovV : F32.mul (F32.fin (1/10141204801825835211973625643008))
    (dotE rayOv.direction
      ⟨F32.fin 18446744073709551616, F32.fin (-18446742974197923840),
       F32.fin 1099511627776⟩)
    = F32.fin (1/9223372036854775808) := by
  simp only [rayOv, dotE, ovM15, ovM16, ovM17, ovA19, ovA15, ovM18]

theorem ovGv : (F32.lt (F32.fin (1/9223372036854775808)) (F32.fin 0)
    || F32.gt (F32.add (F32.fin 0) (F32.fin (1/9223372036854775808))) (F32.fin 1))
    = false := by
  rw [ovG4, ovA16, ovG5, Bool.false_or]

theorem ovT : F32.mul (F32.fin (1/10141204801825835211973625643008))
    (dotE ⟨F32.fin 9223372036854775808, F32.fin 9223372036854775808,
           F32.fin 618970019642690137449562112⟩
      ⟨F32.fin 18446744073709551616, F32.fin (-18446742974197923840),
       F32.fin 1099511627776⟩)
    = F32.posInf := by
  simp only [dotE, ovM19, ovM20, ovM21, ovA17, ovA18, ovM22]

/-- The overflow run: the intersection of `triOv` by `rayOv` returns the
non-finite parameter `+∞`. -/
theorem intersectE_triOv : TriangleE.intersect triOv rayOv = some F32.posInf :=
  intersect_eval triOv rayOv _ _ _ _ _ _ _ _ _ _
    ovE1 ovE2 ovH ovDotA ovGa ovD1 ovS ovU ovGu ovQ ovV ovGv ovT ovG6

/-- The exact run: the intersection of `triPl` by `rayOv` returns the
finite parameter 2 (every binary32 step is exact: `a = −16`,
`f = −1/16`, `u = v = 1/4`, `t = 2`). -/
theorem intersectE_triPl : TriangleE.intersect triPl rayOv = some (F32.fin 2) := by
  norm_num [TriangleE.intersect, triPl, rayOv, vsubE, dotE, crossE, F32.sub,
    F32.neg, F32.add, F32.mul, F32.div, F32.gt, F32.lt, rE_zero, rE_one,
    rE_neg_one, rE_two, rE_neg_two, rE_four, rE_neg_four, rE_neg_eight,
    rE_neg_sixteen, rE_neg_thirtytwo, rE_half, rE_quarter, rE_neg_sixteenth]

theorem ovZPl : F32.add (F32.fin (-1)) (F32.mul (F32.fin 2) (F32.fin 1)) = F32.fin 1 := by
  norm_num [F32.mul, F32.add, rE_two, rE_one]

theorem ovZOv : F32.add (F32.fin (-1)) (F32.mul F32.posInf (F32.fin 1)) = F32.posInf := by
  rw [show F32.mul F32.posInf (F32.fin 1) = F32.posInf from by norm_num [F32.mul]]
  rfl

theorem columnHitsE_cons (tr : TriangleE) (rest : List TriangleE) (ray : RayE)
    (d : F32) (h : tr.intersect ray = some d) :
    columnHitsE (tr :: rest) ray
      = (ray.origin.z.add (d.mul ray.direction.z)) :: columnHitsE rest ray := by
  simp only [columnHitsE, List.filterMap_cons, h, Option.map_some']

theorem columnHitsE_nil (ray : RayE) : columnHitsE [] ray = [] := rfl

/-- The column's hit list: the finite crossing `z = 1` from `triPl` and
the non-finite crossing `z = −1 + ∞·1 = +∞` from `triOv`. -/
theorem ovHits : columnHitsE [triPl, triOv] rayOv = [F32.fin 1, F32.posInf] := by
  rw [columnHitsE_cons triPl [triOv] rayOv (F32.fin 2) intersectE_triPl,
      columnHitsE_cons triOv [] rayOv F32.posInf intersectE_triOv,
      columnHitsE_nil]
  rw [show rayOv.origin.z = F32.fin (-1) from rfl,
      show rayOv.direction.z = F32.fin 1 from rfl, ovZPl, ovZOv]

theorem ovSorted : sortedHitsE [triPl, triOv] rayOv = [F32.fin 1, F32.posInf] := by
  rw [sortedHitsE, ovHits]
  simp [List.insertionSort, List.orderedInsert, F32.cmp]

/-- C5, counterexample to the finiteness clause: on the pixel ray `rayOv`
(the program's ray for pixel `(0,0)` at `pixel_size_mm = 2`, the mesh
minimum being the origin) over the two finite-vertex triangles `triPl`
and `triOv`, the intersection routine overflows to `+∞` yet accepts the
hit (`t = +∞` passes `t > 1e-6`), and the produced span list is
`[(1, +∞)]` — its upper endpoint equals no finite value, so not every
span endpoint is a finite number within the mesh bounds, and a
triangle yielding a non-finite `t` is not treated as no hit. -/
theorem c5_counterexample :
    TriangleE.intersect triOv rayOv = some F32.posInf ∧
    columnSpansE [triPl, triOv] rayOv = [(F32.fin 1, F32.posInf)] ∧
    ∀ z : ℚ, F32.posInf ≠ F32.fin z :=
  ⟨intersectE_triOv, by rw [columnSpansE, ovSorted]; simp [pairSpansE],
   fun z h => F32.noConfusion h⟩

end Slicer
